import Mathlib

/-!
Verification of the TusasSon composite-laminate optimizer core against its
natural-language specification.

The development shallowly embeds the Python source of
`tusas/core/laminate_optimizer.py`, `tusas/core/dropoff_optimizer.py` and
`tusas/core/multi_zone_optimizer.py`:

* a stacking sequence is a `List ℤ` of ply angles;
* Python floats are idealized as real numbers, with `round(x, 2)` modelled by
  round-half-to-even (`pyRound2`);
* fallible code (code that can raise) returns `Option` / `Except`;
* random draws become explicit oracle parameters, validated at the point of
  use so that every concrete execution of the Python code corresponds to some
  oracle.
-/

namespace Tusas

/-! ## Round-half-to-even, the model of Python's `round(x, 2)` -/

/-- Round to the nearest integer, ties to the even neighbour (Python's
`round` on exact values). -/
noncomputable def rhe (x : ℝ) : ℤ :=
  if Int.fract x < 1/2 then ⌊x⌋
  else if 1/2 < Int.fract x then ⌊x⌋ + 1
  else if Even ⌊x⌋ then ⌊x⌋ else ⌊x⌋ + 1

/-- Python's `round(x, 2)`. -/
noncomputable def pyRound2 (x : ℝ) : ℝ := (rhe (100 * x) : ℝ) / 100

theorem rhe_int (m : ℤ) : rhe (m : ℝ) = m := by
  unfold rhe
  rw [Int.fract_intCast, Int.floor_intCast]
  norm_num

theorem rhe_intCast_add_of_lt_half (m : ℤ) (r : ℝ) (h0 : 0 ≤ r) (h1 : r < 1/2) :
    rhe ((m : ℝ) + r) = m := by
  unfold rhe
  rw [Int.fract_int_add, Int.fract_eq_self.mpr ⟨h0, by linarith⟩, if_pos h1,
    Int.floor_int_add, Int.floor_eq_zero_iff.mpr ⟨h0, by linarith⟩]
  ring

theorem rhe_intCast_add_of_gt_half (m : ℤ) (r : ℝ) (h0 : 1/2 < r) (h1 : r < 1) :
    rhe ((m : ℝ) + r) = m + 1 := by
  unfold rhe
  rw [Int.fract_int_add, Int.fract_eq_self.mpr ⟨by linarith, h1⟩,
    Int.floor_int_add, Int.floor_eq_zero_iff.mpr ⟨by linarith, h1⟩]
  rw [if_neg (by linarith), if_pos h0]
  ring

theorem abs_rhe_sub_le (x : ℝ) : |(rhe x : ℝ) - x| ≤ 1/2 := by
  have hf0 := Int.fract_nonneg x
  have hf1 := Int.fract_lt_one x
  have hfr : (⌊x⌋ : ℝ) = x - Int.fract x := by
    rw [Int.fract]; ring
  unfold rhe
  split_ifs with h1 h2 h3
  · rw [abs_le]; constructor <;> rw [hfr] <;> linarith
  · rw [abs_le]; push_cast; constructor <;> rw [hfr] <;> linarith
  · have heq : Int.fract x = 1/2 := le_antisymm (not_lt.mp h2) (not_lt.mp h1)
    rw [abs_le]; constructor <;> rw [hfr, heq] <;> linarith
  · have heq : Int.fract x = 1/2 := le_antisymm (not_lt.mp h2) (not_lt.mp h1)
    rw [abs_le]; push_cast; constructor <;> rw [hfr, heq] <;> linarith

theorem rhe_nonneg (x : ℝ) (hx : 0 ≤ x) : 0 ≤ rhe x := by
  have h := abs_rhe_sub_le x
  rw [abs_le] at h
  by_contra hneg
  push_neg at hneg
  have hle : rhe x ≤ -1 := by omega
  have : (rhe x : ℝ) ≤ -1 := by exact_mod_cast hle
  linarith [h.1]

theorem rhe_le_int (x : ℝ) (E : ℤ) (hx : x ≤ E) : rhe x ≤ E := by
  have h := abs_rhe_sub_le x
  rw [abs_le] at h
  by_contra hgt
  push_neg at hgt
  have hle : E + 1 ≤ rhe x := by omega
  have : (E : ℝ) + 1 ≤ (rhe x : ℝ) := by exact_mod_cast hle
  linarith [h.2]

theorem rhe_add_compl (E : ℤ) (hE : Even E) (x y : ℝ) (hxy : x + y = (E : ℝ)) :
    rhe x + rhe y = E := by
  by_cases h0 : Int.fract x = 0
  · -- both arguments are integers
    have hxz : (⌊x⌋ : ℝ) = x := by
      have := Int.fract x; rw [Int.fract] at h0; linarith [h0]
    have hx' : x = (⌊x⌋ : ℝ) := hxz.symm
    have hy' : y = ((E - ⌊x⌋ : ℤ) : ℝ) := by push_cast; linarith
    rw [hx', hy', rhe_int, rhe_int]
    ring
  · have hf0 : 0 < Int.fract x := lt_of_le_of_ne (Int.fract_nonneg x) (Ne.symm h0)
    have hf1 : Int.fract x < 1 := Int.fract_lt_one x
    have hfx : x = (⌊x⌋ : ℝ) + Int.fract x := (Int.floor_add_fract x).symm
    have hyval : y = (E : ℝ) - x := by linarith
    have hfloory : ⌊y⌋ = E - ⌊x⌋ - 1 := by
      rw [Int.floor_eq_iff (α := ℝ)]
      constructor
      · push_cast
        rw [hyval]
        nth_rewrite 2 [hfx]
        linarith
      · push_cast
        rw [hyval]
        nth_rewrite 1 [hfx]
        linarith
    have hfracty : Int.fract y = 1 - Int.fract x := by
      rw [Int.fract, hfloory, hyval]
      nth_rewrite 1 [hfx]
      push_cast
      rw [Int.fract]
      ring
    rcases lt_trichotomy (Int.fract x) (1/2) with hlt | heq | hgt
    · have hrx : rhe x = ⌊x⌋ := by unfold rhe; rw [if_pos hlt]
      have hry : rhe y = ⌊y⌋ + 1 := by
        unfold rhe
        rw [if_neg (by rw [hfracty]; intro hc; linarith),
          if_pos (by rw [hfracty]; linarith)]
      rw [hrx, hry, hfloory]; ring
    · have hy2 : Int.fract y = 1/2 := by rw [hfracty, heq]; norm_num
      have hrx : rhe x = if Even ⌊x⌋ then ⌊x⌋ else ⌊x⌋ + 1 := by
        unfold rhe; rw [heq]; norm_num
      have hry : rhe y = if Even ⌊y⌋ then ⌊y⌋ else ⌊y⌋ + 1 := by
        unfold rhe; rw [hy2]; norm_num
      rw [hrx, hry, hfloory]
      rcases Int.even_or_odd ⌊x⌋ with hev | hodd
      · rw [if_pos hev, if_neg ?_]
        · ring
        · rcases hE with ⟨k, hk⟩
          rcases hev with ⟨j, hj⟩
          intro hcon
          rcases hcon with ⟨i, hi⟩
          omega
      · rw [if_neg ?_, if_pos ?_]
        · ring
        · rcases hE with ⟨k, hk⟩
          rcases hodd with ⟨j, hj⟩
          exact ⟨k - j - 1, by omega⟩
        · rcases hodd with ⟨j, hj⟩
          intro hcon
          rcases hcon with ⟨i, hi⟩
          omega
    · have hrx : rhe x = ⌊x⌋ + 1 := by
        unfold rhe; rw [if_neg (by intro hc; linarith), if_pos hgt]
      have hry : rhe y = ⌊y⌋ := by
        unfold rhe; rw [if_pos (by rw [hfracty]; linarith)]
      rw [hrx, hry, hfloory]; ring

theorem pyRound2_nonneg (x : ℝ) (hx : 0 ≤ x) : 0 ≤ pyRound2 x := by
  unfold pyRound2
  have : (0 : ℤ) ≤ rhe (100 * x) := rhe_nonneg _ (by linarith)
  positivity

theorem pyRound2_le (x : ℝ) (E : ℤ) (hx : x ≤ (E : ℝ) / 100) :
    pyRound2 x ≤ (E : ℝ) / 100 := by
  unfold pyRound2
  have h : rhe (100 * x) ≤ E := rhe_le_int _ _ (by linarith)
  have : (rhe (100 * x) : ℝ) ≤ (E : ℝ) := by exact_mod_cast h
  linarith

theorem pyRound2_add_compl (E : ℤ) (hE : Even E) (p s : ℝ)
    (h : p + s = (E : ℝ) / 100) : pyRound2 p + pyRound2 s = (E : ℝ) / 100 := by
  unfold pyRound2
  have h2 : 100 * p + 100 * s = ((E : ℤ) : ℝ) := by linarith
  have := rhe_add_compl E hE (100 * p) (100 * s) h2
  have hcast : ((rhe (100 * p) + rhe (100 * s) : ℤ) : ℝ) = (E : ℝ) := by
    rw [this]
  rw [Int.cast_add] at hcast
  linarith

theorem pyRound2_int_div (m : ℤ) : pyRound2 ((m : ℝ) / 100) = (m : ℝ) / 100 := by
  unfold pyRound2
  rw [show (100 : ℝ) * ((m : ℝ) / 100) = (m : ℝ) by ring, rhe_int]

/-! ## List helpers shared by the embedded modules -/

/-- Positions (ascending) at which `s` holds angle `ang`
(`[i for i, x in enumerate(sequence) if x == angle]`). -/
def positionsOf (s : List ℤ) (ang : ℤ) : List ℕ :=
  (List.range s.length).filter (fun i => s.getD i 0 == ang)

/-- Successive differences (`np.diff`). -/
def npDiff (l : List ℕ) : List ℤ :=
  List.zipWith (fun a b => (b : ℤ) - (a : ℤ)) l l.tail

/-- Arithmetic mean (`np.mean`); zero on the empty list. -/
noncomputable def npMean (l : List ℤ) : ℝ :=
  (l.map (fun x => (x : ℝ))).sum / l.length

/-- Population standard deviation (`np.std`). -/
noncomputable def npStd (l : List ℤ) : ℝ :=
  Real.sqrt ((l.map (fun x => ((x : ℝ) - npMean l) ^ 2)).sum / l.length)

/-- Stable insertion step: place `x` before the first `b` with `le x b`. -/
def insertBy (le : α → α → Bool) (x : α) : List α → List α
  | [] => [x]
  | b :: bs => if le x b then x :: b :: bs else b :: insertBy le x bs

/-- Stable sort (the semantics of Python's `sorted` / `list.sort`). -/
def sortBy (le : α → α → Bool) : List α → List α
  | [] => []
  | x :: xs => insertBy le x (sortBy le xs)

/-- `sorted` on natural numbers. -/
def sortNat (l : List ℕ) : List ℕ := sortBy (fun a b => a ≤ b) l

/-- `sorted` on integers. -/
def sortInt (l : List ℤ) : List ℤ := sortBy (fun a b => a ≤ b) l

/-- Remove the elements whose index lies in `idxs`
(`[x for i, x in enumerate(seq) if i not in idxs]`). -/
def removeIdxs (s : List ℤ) (idxs : List ℕ) : List ℤ :=
  ((List.range s.length).filter (fun i => !(idxs.contains i))).map
    (fun i => s.getD i 0)

/-! ## Rule evaluator (`LaminateOptimizer`), default weights -/

/-- Rule 1, symmetry: distance-weighted mirror-mismatch penalty
(`_check_symmetry_distance_weighted`). -/
noncomputable def check_symmetry_distance_weighted (s : List ℤ) : ℝ :=
  let n := s.length
  let mid : ℝ := ((n : ℝ) - 1) / 2
  min
    (∑ i ∈ Finset.range (n / 2),
      if s.getD i 0 ≠ s.getD (n - 1 - i) 0 then 18 * (|(i : ℝ) - mid| / max 1 mid)
      else 0)
    18

/-- Rule 2, ±45 balance (`_check_balance_45`); the divisor is the floored
half `total_45_count // 2`. -/
noncomputable def check_balance_45 (s : List ℤ) : ℝ :=
  let diff : ℕ := ((s.count 45 : ℤ) - (s.count (-45) : ℤ)).natAbs
  let total45 : ℕ := s.count 45 + s.count (-45)
  if 0 < total45 then 12 * min 1 ((diff : ℝ) / ((max 1 (total45 / 2) : ℕ) : ℝ))
  else 0

/-- Per-angle ratio `count / n` of Rule 3 (0 when the sequence is empty). -/
noncomputable def angleRatio (s : List ℤ) (ang : ℤ) : ℝ :=
  if 0 < s.length then (s.count ang : ℝ) / (s.length : ℝ) else 0

/-- Rule 3, percentage rule (`_check_percentage_rule`). -/
noncomputable def check_percentage_rule (s : List ℤ) : ℝ :=
  min
    ((([0, 45, -45, 90] : List ℤ).map (fun ang =>
      if angleRatio s ang < 0.08 ∨ 0.67 < angleRatio s ang then 13 / 4 else 0)).sum)
    13

/-- Rule 4, external plies; returns the SCORE (`_check_external_plies`). -/
noncomputable def check_external_plies (s : List ℤ) : ℝ :=
  let n := s.length
  if n < 2 then 12
  else
    max 0 (12 -
      ((if s.getD 0 0 = s.getD 1 0 then 12 * 0.15 else 0) +
       (if s.getD (n - 1) 0 = s.getD (n - 2) 0 then 12 * 0.15 else 0)))

/-- Per-angle contribution of Rule 5 (one iteration of the angle loop of
`_check_distribution_variance`). -/
noncomputable def distAngleContribution (s : List ℤ) (ang : ℤ) : ℝ :=
  let n := s.length
  let idx := positionsOf s ang
  if 1 < idx.length then
    let ideal : ℝ := (n : ℝ) / (idx.length : ℝ)
    let sp := npDiff idx
    let comp1 : ℝ :=
      if 0 < sp.length then
        min 1 (npStd sp / max ideal 1) * (14 / 4) * 0.6
      else 0
    let span : ℤ := ((idx.getLast?.getD 0 : ℕ) : ℤ) - ((idx.headD 0 : ℕ) : ℤ)
    let spanRatio : ℝ := (span : ℝ) / ((max 1 (n - 1) : ℕ) : ℝ)
    let comp2 : ℝ :=
      if spanRatio < 0.6 then ((0.6 - spanRatio) / 0.6) * (14 / 4) * 0.4
      else 0
    comp1 + comp2
  else 0

/-- Rule 5, distribution (`_check_distribution_variance`). -/
noncomputable def check_distribution_variance (s : List ℤ) : ℝ :=
  min ((([0, 45, -45, 90] : List ℤ).map (distAngleContribution s)).sum) 14

/-- One pass of the grouping loop shared by `_check_grouping`: returns
(max run, adjacent identical pairs, adjacent 0°/90° pairs). -/
def groupLoop : List ℤ → ℤ → ℕ → ℕ → ℕ → ℕ → ℕ × ℕ × ℕ
  | [], _, _, maxg, tap, ap09 => (maxg, tap, ap09)
  | x :: rest, prev, curr, maxg, tap, ap09 =>
    let curr' := if x = prev then curr + 1 else 1
    let tap' := if x = prev then tap + 1 else tap
    let ap' := if x = prev ∧ (x = 0 ∨ x = 90) then ap09 + 1 else ap09
    groupLoop rest x curr' (max maxg curr') tap' ap'

/-- Grouping statistics of `_check_grouping`'s scanning loop. -/
def groupStatsOf (s : List ℤ) : ℕ × ℕ × ℕ :=
  match s with
  | [] => (1, 0, 0)
  | x :: rest => groupLoop rest x 1 1 0 0

/-- Counting loop of `_find_groups_of_size`. -/
def fgsLoop : List ℤ → ℤ → ℕ → ℕ → ℕ → ℕ
  | [], _, curr, t, cnt => if curr = t then cnt + 1 else cnt
  | x :: rest, prev, curr, t, cnt =>
    if x = prev then fgsLoop rest x (curr + 1) t cnt
    else fgsLoop rest x 1 t (if curr = t then cnt + 1 else cnt)

/-- Number of runs of identical adjacent angles of length exactly `t`
(`_find_groups_of_size`). -/
def findGroupsOfSize (s : List ℤ) (t : ℕ) : ℕ :=
  if s.length < t then 0
  else
    match s with
    | [] => if 1 = t then 1 else 0
    | x :: rest => fgsLoop rest x 1 t 0

/-- Rule 6, grouping (`_check_grouping`, `max_group = 3`). -/
noncomputable def check_grouping (s : List ℤ) : ℝ :=
  let n := s.length
  let st := groupStatsOf s
  let maxg := st.1
  let tap := st.2.1
  let ap09 := st.2.2
  let pen1 : ℝ := if 3 < maxg then ((maxg - 3 : ℕ) : ℝ) * (20.5 * 0.35) else 0
  let pen2 : ℝ := (findGroupsOfSize s 3 : ℝ) * 2.0
  let pen3 : ℝ := (ap09 : ℝ) * 0.3
  let pen4 : ℝ :=
    if 1 < n then ((tap : ℝ) / (((n - 1 : ℕ)) : ℝ)) * (20.5 * 0.50) else 0
  min (pen1 + pen2 + pen3 + pen4) 20.5

/-- Normalized mid-plane distance of position `p` in a sequence of length `n`:
`abs(pos - mid) / max(1, mid)` with `mid = (n - 1) / 2`. -/
noncomputable def midDist (n : ℕ) (p : ℕ) : ℝ :=
  |(p : ℝ) - ((n : ℝ) - 1) / 2| / max 1 (((n : ℝ) - 1) / 2)

/-- Positions with a ±45° ply (`positions_45` of `_check_buckling`). -/
def pos45of (s : List ℤ) : List ℕ :=
  (List.range s.length).filter (fun i => (s.getD i 0).natAbs == 45)

/-- One summand of the Rule 7 penalty sum. -/
noncomputable def bucklingTerm (n : ℕ) (p : ℕ) : ℝ :=
  if midDist n p < 0.15 then ((0.15 - midDist n p) / 0.15) ^ (0.5 : ℝ) * 0.5 else 0

/-- Rule 7, buckling (`_check_buckling`). -/
noncomputable def check_buckling (s : List ℤ) : ℝ :=
  if pos45of s = [] then 0
  else
    min ((((pos45of s).map (bucklingTerm s.length)).sum / ((pos45of s).length : ℝ)) * 3.5)
      3.5

/-- One summand of the Rule 8 penalty sum. -/
noncomputable def lateralTerm (n : ℕ) (p : ℕ) : ℝ :=
  if midDist n p < 0.20 then ((0.20 - midDist n p) / 0.20) ^ (0.4 : ℝ) * 1.5 else 0

/-- The `center_hits` counter of `_check_lateral_bending`. -/
noncomputable def lateralCenterHits (s : List ℤ) : ℕ :=
  ((positionsOf s 90).filter (fun p => decide (midDist s.length p < 0.20))).length

/-- The normalized Rule 8 penalty before the center-hit floors. -/
noncomputable def lateralNormalized (s : List ℤ) : ℝ :=
  (((positionsOf s 90).map (lateralTerm s.length)).sum / ((positionsOf s 90).length : ℝ)) * 7

/-- Rule 8, lateral bending (`_check_lateral_bending`,
`LATERAL_BENDING_THRESHOLD = 0.20`). -/
noncomputable def check_lateral_bending (s : List ℤ) : ℝ :=
  if positionsOf s 90 = [] then 0
  else
    min
      (if 2 ≤ lateralCenterHits s then max (lateralNormalized s) (7 * 0.95)
       else if lateralCenterHits s = 1 then max (lateralNormalized s) (7 * 0.85)
       else lateralNormalized s)
      7

/-- First index of a 0°/90° adjacency, scanning left to right. -/
def adj09Idx : List ℤ → ℕ → Option ℕ
  | a :: b :: rest, i =>
    if (a = 0 ∧ b = 90) ∨ (a = 90 ∧ b = 0) then some i
    else adj09Idx (b :: rest) (i + 1)
  | _, _ => none

/-- Does the sequence contain a 0°/90° adjacency (HARD 2 scanning loop)? -/
def adj09B : List ℤ → Bool
  | a :: b :: rest => ((a == 0 && b == 90) || (a == 90 && b == 0)) || adj09B (b :: rest)
  | _ => false

/-- HARD 3 of `calculate_fitness`: some of the four outer plies is not ±45
(only checked when the sequence has at least four plies). -/
def outerNot45B (s : List ℤ) : Bool :=
  if 4 ≤ s.length then
    !((s.getD 0 0).natAbs == 45 && (s.getD 1 0).natAbs == 45 &&
      (s.getD (s.length - 2) 0).natAbs == 45 && (s.getD (s.length - 1) 0).natAbs == 45)
  else false

/-- HARD 1 of `calculate_fitness`: the sequence starts or ends with 0°. -/
def endpoint0B (s : List ℤ) : Bool :=
  s.getD 0 0 == 0 || s.getD (s.length - 1) 0 == 0

/-- All three hard-constraint checks of `calculate_fitness`. -/
def hardFailB (s : List ℤ) : Bool := endpoint0B s || adj09B s || outerNot45B s

/-- One per-rule record of the fitness breakdown. -/
structure RuleEntry where
  weight : ℝ
  score : ℝ
  penalty : ℝ
  reason : String

/-- The breakdown dictionary returned next to the total. -/
structure FitBreakdown where
  totalScore : ℝ
  maxScore : ℝ
  rules : List (String × RuleEntry)

/-- A synthetic single-rule breakdown used by the hard-fail returns. -/
def hardFailBreakdown (name : String) (reason : String) : FitBreakdown :=
  ⟨0, 100, [(name, ⟨999, 0, 999, reason⟩)]⟩

/-- Raw (un-rounded) penalties of the eight soft rules, in rule order. -/
noncomputable def rawPenalties (s : List ℤ) : List ℝ :=
  [check_symmetry_distance_weighted s,
   check_balance_45 s,
   check_percentage_rule s,
   12 - check_external_plies s,
   check_distribution_variance s,
   check_grouping s,
   check_buckling s,
   check_lateral_bending s]

/-- The eight default rule weights, in rule order (`WEIGHTS`, sum 100). -/
def ruleWeights : List ℝ := [18, 12, 13, 12, 14, 20.5, 3.5, 7]

/-- Raw (un-rounded) score of rule `k`: `max(0, w_k − penalty_k)`; for R4 the
source computes the score directly but the value agrees with this form. -/
noncomputable def rawScore (s : List ℤ) (k : ℕ) : ℝ :=
  max 0 (ruleWeights.getD k 0 - (rawPenalties s).getD k 0)

/-- The `rules` dictionary built by the soft branch of `calculate_fitness`. -/
noncomputable def softRules (s : List ℤ) : List (String × RuleEntry) :=
  let p1 := check_symmetry_distance_weighted s
  let s1 := max 0 (18 - p1)
  let p2 := check_balance_45 s
  let s2 := max 0 (12 - p2)
  let p3 := check_percentage_rule s
  let s3 := max 0 (13 - p3)
  let s4 := check_external_plies s
  let p4 := 12 - s4
  let p5 := check_distribution_variance s
  let s5 := max 0 (14 - p5)
  let p6 := check_grouping s
  let s6 := max 0 (20.5 - p6)
  let p7 := check_buckling s
  let s7 := max 0 (3.5 - p7)
  let p8 := check_lateral_bending s
  let s8 := max 0 (7 - p8)
  [("R1", ⟨18, pyRound2 s1, pyRound2 p1, if 0 < p1 then "Asimetri var" else ""⟩),
   ("R2", ⟨12, pyRound2 s2, pyRound2 p2, if 0 < p2 then "+45/-45 sayıları eşit değil" else ""⟩),
   ("R3", ⟨13, pyRound2 s3, pyRound2 p3, if 0 < p3 then "Bazı açılar %8-67 dışında" else ""⟩),
   ("R4", ⟨12, pyRound2 s4, pyRound2 p4, if 0 < p4 then "Dış katmanlar ideal değil" else ""⟩),
   ("R5", ⟨14, pyRound2 s5, pyRound2 p5, if 0 < p5 then "Dağılım uniform değil" else ""⟩),
   ("R6", ⟨20.5, pyRound2 s6, pyRound2 p6, if 0 < p6 then "grup sayıları" else ""⟩),
   ("R7", ⟨3.5, pyRound2 s7, pyRound2 p7, if 0 < p7 then "±45 middle plane'e yakın" else ""⟩),
   ("R8", ⟨7, pyRound2 s8, pyRound2 p8, if 0 < p8 then "90° middle plane'e yakın" else ""⟩)]

/-- The total used for ranking: the sum of the (already-rounded) per-rule
scores, `float(sum(r["score"] for r in rules_result.values()))`. -/
noncomputable def softTotal (s : List ℤ) : ℝ :=
  ((softRules s).map (fun r => r.2.score)).sum

/-- `LaminateOptimizer.calculate_fitness` with the default weight map.
Returns `none` exactly when the Python function raises (`sequence[0]` on the
empty list); otherwise `(total_score, breakdown)`. -/
noncomputable def calculate_fitness (s : List ℤ) : Option (ℝ × FitBreakdown) :=
  if s = [] then none
  else if endpoint0B s then
    some (0, hardFailBreakdown "EXTERNAL_0" "0° başlangıç veya bitiş katmanı (YASAK)")
  else if adj09B s then
    some (0, hardFailBreakdown "ADJ_0_90"
      ("0° ve 90° yan yana (YASAK) - pozisyon " ++
        toString ((adj09Idx s 0).getD 0) ++ "/" ++ toString ((adj09Idx s 0).getD 0 + 1)))
  else if outerNot45B s then
    some (0, hardFailBreakdown "EXTERNAL_45" "katman ±45° değil (YASAK)")
  else
    some (softTotal s, ⟨pyRound2 (softTotal s), 100, softRules s⟩)

/-- Total score used for ranking (`score, _ = calculate_fitness(...)`);
defaults to 0 when the call would raise. -/
noncomputable def fitTotal (s : List ℤ) : ℝ :=
  ((calculate_fitness s).map Prod.fst).getD 0

/-- Rule entries of the returned breakdown. -/
noncomputable def fitRules (s : List ℤ) : List (String × RuleEntry) :=
  ((calculate_fitness s).map (fun r => r.2.rules)).getD []

/-- Reported (`round(x, 2)`-ed) total of the returned breakdown. -/
noncomputable def fitReportedTotal (s : List ℤ) : ℝ :=
  ((calculate_fitness s).map (fun r => r.2.totalScore)).getD 0

/-! ## Run decomposition: the semantic reading of the grouping loops -/

/-- Collect run lengths, carrying the current run (angle `prev`, length `cnt`). -/
def runLengthsGo (prev : ℤ) (cnt : ℕ) : List ℤ → List ℕ
  | [] => [cnt]
  | y :: ys => if y = prev then runLengthsGo y (cnt + 1) ys else cnt :: runLengthsGo y 1 ys

/-- The maximal-run decomposition of a sequence: the lengths of its maximal
runs of identical adjacent angles, in order. -/
def runLengths : List ℤ → List ℕ
  | [] => []
  | x :: rest => runLengthsGo x 1 rest

theorem fgsLoop_eq_count (rest : List ℤ) :
    ∀ prev curr t cnt, fgsLoop rest prev curr t cnt =
      cnt + (runLengthsGo prev curr rest).count t := by
  induction rest with
  | nil =>
    intro prev curr t cnt
    simp only [fgsLoop, runLengthsGo, List.count_cons, List.count_nil]
    by_cases h : curr = t
    · subst h
      simp
    · have hne : ¬ ((curr == t) = true) := by
        simp only [beq_iff_eq]
        exact h
      rw [if_neg h, if_neg hne]
      omega
  | cons y ys ih =>
    intro prev curr t cnt
    simp only [fgsLoop, runLengthsGo]
    by_cases h : y = prev
    · rw [if_pos h, if_pos h, ih]
    · rw [if_neg h, if_neg h, ih, List.count_cons]
      by_cases h2 : curr = t
      · subst h2
        simp
        omega
      · have hne : ¬ ((curr == t) = true) := by
          simp only [beq_iff_eq]
          exact h2
        rw [if_neg h2, if_neg hne]
        omega

theorem runLengthsGo_mem_le (rest : List ℤ) :
    ∀ prev cnt m, m ∈ runLengthsGo prev cnt rest → m ≤ cnt + rest.length := by
  induction rest with
  | nil =>
    intro prev cnt m hm
    simp only [runLengthsGo, List.mem_singleton] at hm
    omega
  | cons y ys ih =>
    intro prev cnt m hm
    simp only [runLengthsGo] at hm
    by_cases h : y = prev
    · rw [if_pos h] at hm
      have := ih y (cnt + 1) m hm
      simp only [List.length_cons]
      omega
    · rw [if_neg h, List.mem_cons] at hm
      rcases hm with hm | hm
      · simp only [List.length_cons]; omega
      · have := ih y 1 m hm
        simp only [List.length_cons]
        omega

/-- `_find_groups_of_size` counts exactly the maximal runs of the requested
length. -/
theorem findGroupsOfSize_eq_count (s : List ℤ) (t : ℕ) :
    findGroupsOfSize s t = (runLengths s).count t := by
  unfold findGroupsOfSize
  by_cases hlen : s.length < t
  · rw [if_pos hlen]
    match s with
    | [] => simp [runLengths]
    | x :: rest =>
      symm
      rw [List.count_eq_zero]
      intro hmem
      have hle := runLengthsGo_mem_le rest x 1 t (by exact hmem)
      simp only [List.length_cons] at hlen
      omega
  · rw [if_neg hlen]
    match s with
    | [] =>
      simp only [List.length_nil, not_lt, Nat.le_zero] at hlen
      show (if 1 = t then 1 else 0) = List.count t ([] : List ℕ)
      simp [hlen]
    | x :: rest =>
      show fgsLoop rest x 1 t 0 = List.count t (runLengthsGo x 1 rest)
      rw [fgsLoop_eq_count]
      omega

/-! ## Semantic form of the hard-constraint checks -/

theorem adj09B_iff (s : List ℤ) :
    adj09B s = true ↔
      ∃ i, i + 1 < s.length ∧
        ((s.getD i 0 = 0 ∧ s.getD (i + 1) 0 = 90) ∨
         (s.getD i 0 = 90 ∧ s.getD (i + 1) 0 = 0)) := by
  induction s with
  | nil => simp [adj09B]
  | cons a rest ih =>
    match rest, ih with
    | [], _ =>
      simp [adj09B]
    | b :: rest', ih =>
      rw [adj09B]
      constructor
      · intro h
        rcases Bool.or_eq_true_iff.mp h with h1 | h2
        · refine ⟨0, by simp, ?_⟩
          simp only [List.getD_cons_zero, List.getD_cons_succ]
          rcases Bool.or_eq_true_iff.mp h1 with hA | hB
          · left
            have := Bool.and_eq_true_iff.mp hA
            exact ⟨by simpa using this.1, by simpa using this.2⟩
          · right
            have := Bool.and_eq_true_iff.mp hB
            exact ⟨by simpa using this.1, by simpa using this.2⟩
        · rcases ih.mp h2 with ⟨i, hlen, hcase⟩
          exact ⟨i + 1, by simpa using Nat.succ_lt_succ hlen, by simpa using hcase⟩
      · rintro ⟨i, hlen, hcase⟩
        rcases i with _ | j
        · apply Bool.or_eq_true_iff.mpr
          left
          simp only [List.getD_cons_zero, List.getD_cons_succ] at hcase
          rcases hcase with ⟨h1, h2⟩ | ⟨h1, h2⟩
          · exact Bool.or_eq_true_iff.mpr (Or.inl (by simp [h1, h2]))
          · exact Bool.or_eq_true_iff.mpr (Or.inr (by simp [h1, h2]))
        · apply Bool.or_eq_true_iff.mpr
          right
          apply ih.mpr
          refine ⟨j, by simpa using Nat.lt_of_succ_lt_succ hlen, by simpa using hcase⟩

/-- The semantic hard-constraint violation predicate, as the spec states it. -/
def HardViolation (s : List ℤ) : Prop :=
  s.getD 0 0 = 0 ∨ s.getD (s.length - 1) 0 = 0 ∨
  (∃ i, i + 1 < s.length ∧
    ((s.getD i 0 = 0 ∧ s.getD (i + 1) 0 = 90) ∨
     (s.getD i 0 = 90 ∧ s.getD (i + 1) 0 = 0))) ∨
  (4 ≤ s.length ∧
    ((s.getD 0 0).natAbs ≠ 45 ∨ (s.getD 1 0).natAbs ≠ 45 ∨
     (s.getD (s.length - 2) 0).natAbs ≠ 45 ∨ (s.getD (s.length - 1) 0).natAbs ≠ 45))

theorem endpoint0B_iff (s : List ℤ) :
    endpoint0B s = true ↔ (s.getD 0 0 = 0 ∨ s.getD (s.length - 1) 0 = 0) := by
  unfold endpoint0B
  rw [Bool.or_eq_true_iff, beq_iff_eq, beq_iff_eq]

theorem outerNot45B_iff (s : List ℤ) :
    outerNot45B s = true ↔
      (4 ≤ s.length ∧
        ((s.getD 0 0).natAbs ≠ 45 ∨ (s.getD 1 0).natAbs ≠ 45 ∨
         (s.getD (s.length - 2) 0).natAbs ≠ 45 ∨ (s.getD (s.length - 1) 0).natAbs ≠ 45)) := by
  unfold outerNot45B
  split_ifs with h4
  · constructor
    · intro h
      refine ⟨h4, ?_⟩
      by_contra hc
      push_neg at hc
      rcases hc with ⟨ha, hb, hcc, hd⟩
      have hall : ((s.getD 0 0).natAbs == 45 && (s.getD 1 0).natAbs == 45 &&
          ((s.getD (s.length - 2) 0).natAbs == 45) &&
          ((s.getD (s.length - 1) 0).natAbs == 45)) = true := by
        simp only [Bool.and_eq_true, beq_iff_eq]
        exact ⟨⟨⟨ha, hb⟩, hcc⟩, hd⟩
      rw [hall] at h
      simp at h
    · rintro ⟨-, hcase⟩
      rw [Bool.not_eq_true']
      rw [Bool.eq_false_iff]
      intro hall
      simp only [Bool.and_eq_true, beq_iff_eq] at hall
      tauto
  · constructor
    · intro h
      exact absurd h (by simp)
    · rintro ⟨hlen, -⟩
      exact absurd hlen h4

theorem hardFailB_iff (s : List ℤ) : hardFailB s = true ↔ HardViolation s := by
  unfold hardFailB
  rw [Bool.or_eq_true_iff, Bool.or_eq_true_iff, endpoint0B_iff, adj09B_iff,
    outerNot45B_iff]
  unfold HardViolation
  rw [or_assoc, or_assoc]

/-! ## Bounds on the raw penalties -/

theorem ite_rpow_term_nonneg (c e m d : ℝ) (hc : 0 < c) (hm : 0 ≤ m) :
    0 ≤ if d < c then ((c - d) / c) ^ e * m else 0 := by
  split_ifs with h
  · exact mul_nonneg (Real.rpow_nonneg (div_nonneg (by linarith) hc.le) e) hm
  · exact le_refl 0

theorem check_symmetry_nonneg (s : List ℤ) : 0 ≤ check_symmetry_distance_weighted s := by
  unfold check_symmetry_distance_weighted
  apply le_min _ (by norm_num)
  apply Finset.sum_nonneg
  intro i _
  split_ifs
  · have hpos : (0 : ℝ) < max 1 ((((s.length : ℝ)) - 1) / 2) :=
      lt_of_lt_of_le one_pos (le_max_left _ _)
    have := div_nonneg (abs_nonneg ((i : ℝ) - ((s.length : ℝ) - 1) / 2)) hpos.le
    linarith
  · exact le_refl 0

theorem check_symmetry_le (s : List ℤ) : check_symmetry_distance_weighted s ≤ 18 :=
  min_le_right _ _

theorem check_balance_nonneg (s : List ℤ) : 0 ≤ check_balance_45 s := by
  simp only [check_balance_45]
  split_ifs
  · have hx : (0 : ℝ) ≤
        ((((s.count 45 : ℤ) - (s.count (-45) : ℤ)).natAbs : ℝ)) /
          (((max 1 ((s.count 45 + s.count (-45)) / 2) : ℕ)) : ℝ) :=
      div_nonneg (Nat.cast_nonneg _) (Nat.cast_nonneg _)
    have := le_min zero_le_one hx
    linarith
  · exact le_refl 0

theorem check_balance_le (s : List ℤ) : check_balance_45 s ≤ 12 := by
  simp only [check_balance_45]
  split_ifs
  · have h1 : min 1
        (((((s.count 45 : ℤ) - (s.count (-45) : ℤ)).natAbs : ℝ)) /
          (((max 1 ((s.count 45 + s.count (-45)) / 2) : ℕ)) : ℝ)) ≤ 1 :=
      min_le_left _ _
    linarith
  · norm_num

theorem check_percentage_nonneg (s : List ℤ) : 0 ≤ check_percentage_rule s := by
  simp only [check_percentage_rule]
  apply le_min _ (by norm_num)
  apply List.sum_nonneg
  intro x hx
  simp only [List.map_cons, List.map_nil, List.mem_cons, List.not_mem_nil, or_false] at hx
  rcases hx with h | h | h | h <;> rw [h] <;> split_ifs <;> norm_num

theorem check_percentage_le (s : List ℤ) : check_percentage_rule s ≤ 13 :=
  min_le_right _ _

theorem check_external_nonneg (s : List ℤ) : 0 ≤ check_external_plies s := by
  simp only [check_external_plies]
  split_ifs <;> norm_num

theorem check_external_le (s : List ℤ) : check_external_plies s ≤ 12 := by
  simp only [check_external_plies]
  split_ifs <;> norm_num

theorem distAngleContribution_nonneg (s : List ℤ) (ang : ℤ) :
    0 ≤ distAngleContribution s ang := by
  simp only [distAngleContribution]
  have hmin : (0:ℝ) ≤ min 1 (npStd (npDiff (positionsOf s ang)) /
      max ((s.length : ℝ) / ((positionsOf s ang).length : ℝ)) 1) := by
    apply le_min zero_le_one
    apply div_nonneg (Real.sqrt_nonneg _)
    exact le_trans zero_le_one (le_max_right _ _)
  by_cases h1 : 1 < (positionsOf s ang).length
  · rw [if_pos h1]
    apply add_nonneg
    · split_ifs with h2
      · linarith
      · exact le_refl 0
    · split_ifs with h3
      · have hge := sub_nonneg.mpr (le_of_lt h3)
        have hdiv := div_nonneg hge (by norm_num : (0:ℝ) ≤ 0.6)
        linarith
      · exact le_refl 0
  · rw [if_neg h1]

theorem check_distribution_nonneg (s : List ℤ) : 0 ≤ check_distribution_variance s := by
  simp only [check_distribution_variance]
  apply le_min _ (by norm_num)
  apply List.sum_nonneg
  intro x hx
  rcases List.mem_map.mp hx with ⟨ang, _, hmap⟩
  rw [← hmap]
  exact distAngleContribution_nonneg s ang

theorem check_distribution_le (s : List ℤ) : check_distribution_variance s ≤ 14 :=
  min_le_right _ _

theorem check_grouping_nonneg (s : List ℤ) : 0 ≤ check_grouping s := by
  simp only [check_grouping]
  apply le_min _ (by norm_num)
  have h1 : (0:ℝ) ≤ (if 3 < (groupStatsOf s).1 then
      (((groupStatsOf s).1 - 3 : ℕ) : ℝ) * (20.5 * 0.35) else 0) := by
    split_ifs <;> positivity
  have h2 : (0:ℝ) ≤ (findGroupsOfSize s 3 : ℝ) * 2.0 := by positivity
  have h3 : (0:ℝ) ≤ ((groupStatsOf s).2.2 : ℝ) * 0.3 := by positivity
  have h4 : (0:ℝ) ≤ (if 1 < s.length then
      (((groupStatsOf s).2.1 : ℝ) / (((s.length - 1 : ℕ)) : ℝ)) * (20.5 * 0.50) else 0) := by
    split_ifs <;> positivity
  linarith

theorem check_grouping_le (s : List ℤ) : check_grouping s ≤ 20.5 :=
  min_le_right _ _

theorem bucklingTerm_nonneg (n p : ℕ) : 0 ≤ bucklingTerm n p :=
  ite_rpow_term_nonneg 0.15 (0.5 : ℝ) 0.5 (midDist n p) (by norm_num) (by norm_num)

theorem lateralTerm_nonneg (n p : ℕ) : 0 ≤ lateralTerm n p :=
  ite_rpow_term_nonneg 0.20 (0.4 : ℝ) 1.5 (midDist n p) (by norm_num) (by norm_num)

theorem check_buckling_nonneg (s : List ℤ) : 0 ≤ check_buckling s := by
  simp only [check_buckling]
  split_ifs
  · exact le_refl 0
  · apply le_min _ (by norm_num)
    have hsum : (0:ℝ) ≤ ((pos45of s).map (bucklingTerm s.length)).sum := by
      apply List.sum_nonneg
      intro x hx
      rcases List.mem_map.mp hx with ⟨p, _, hp⟩
      rw [← hp]
      exact bucklingTerm_nonneg _ _
    have := div_nonneg hsum (Nat.cast_nonneg (pos45of s).length)
    nlinarith

theorem check_buckling_le (s : List ℤ) : check_buckling s ≤ 3.5 := by
  simp only [check_buckling]
  split_ifs
  · norm_num
  · exact min_le_right _ _

theorem lateralNormalized_nonneg (s : List ℤ) : 0 ≤ lateralNormalized s := by
  simp only [lateralNormalized]
  have hsum : (0:ℝ) ≤ ((positionsOf s 90).map (lateralTerm s.length)).sum := by
    apply List.sum_nonneg
    intro x hx
    rcases List.mem_map.mp hx with ⟨p, _, hp⟩
    rw [← hp]
    exact lateralTerm_nonneg _ _
  have := div_nonneg hsum (Nat.cast_nonneg (positionsOf s 90).length)
  nlinarith

theorem check_lateral_nonneg (s : List ℤ) : 0 ≤ check_lateral_bending s := by
  simp only [check_lateral_bending]
  split_ifs
  · exact le_refl 0
  · exact le_min (le_trans (by norm_num : (0:ℝ) ≤ 7 * 0.95) (le_max_right _ _))
      (by norm_num)
  · exact le_min (le_trans (by norm_num : (0:ℝ) ≤ 7 * 0.85) (le_max_right _ _))
      (by norm_num)
  · exact le_min (lateralNormalized_nonneg s) (by norm_num)

theorem check_lateral_le (s : List ℤ) : check_lateral_bending s ≤ 7 := by
  simp only [check_lateral_bending]
  split_ifs
  · norm_num
  all_goals exact min_le_right _ _

/-! ## Rounded complementary pairs and the soft branch -/

theorem roundPair (E : ℤ) (hE : Even E) (w p sv : ℝ) (hw : (E : ℝ) / 100 = w)
    (hsum : p + sv = w) (hp : 0 ≤ p) (hs : 0 ≤ sv) :
    pyRound2 p = w - pyRound2 sv ∧ 0 ≤ pyRound2 sv ∧ pyRound2 sv ≤ w := by
  have h1 := pyRound2_add_compl E hE p sv (by rw [hw]; exact hsum)
  refine ⟨by rw [← hw]; linarith, pyRound2_nonneg _ hs, ?_⟩
  rw [← hw]
  exact pyRound2_le _ E (by rw [hw]; linarith)

theorem calculate_fitness_of_ok (s : List ℤ) (hne : s ≠ []) (hok : hardFailB s = false) :
    calculate_fitness s =
      some (softTotal s, ⟨pyRound2 (softTotal s), 100, softRules s⟩) := by
  have h := hok
  unfold hardFailB at h
  rw [Bool.or_eq_false_iff] at h
  obtain ⟨h12, h3⟩ := h
  rw [Bool.or_eq_false_iff] at h12
  obtain ⟨h1, h2⟩ := h12
  unfold calculate_fitness
  rw [if_neg hne, if_neg (by rw [h1]; exact Bool.false_ne_true),
    if_neg (by rw [h2]; exact Bool.false_ne_true),
    if_neg (by rw [h3]; exact Bool.false_ne_true)]

theorem fitTotal_of_ok (s : List ℤ) (hne : s ≠ []) (hok : hardFailB s = false) :
    fitTotal s = softTotal s := by
  unfold fitTotal
  rw [calculate_fitness_of_ok s hne hok]
  rfl

theorem fitRules_of_ok (s : List ℤ) (hne : s ≠ []) (hok : hardFailB s = false) :
    fitRules s = softRules s := by
  unfold fitRules
  rw [calculate_fitness_of_ok s hne hok]
  rfl

theorem fitReportedTotal_of_ok (s : List ℤ) (hne : s ≠ []) (hok : hardFailB s = false) :
    fitReportedTotal s = pyRound2 (softTotal s) := by
  unfold fitReportedTotal
  rw [calculate_fitness_of_ok s hne hok]
  rfl

/-! ## C3 — well-formedness of the soft-branch result -/

/-- C3: for every sequence that passes the hard constraints, the total score
lies in [0, 100], the total equals the sum of the eight per-rule scores, and
each rule's reported penalty equals its weight minus its reported score, with
the reported score between 0 and the weight. -/
theorem soft_scores_well_formed (s : List ℤ) (hne : s ≠ []) (hok : hardFailB s = false) :
    0 ≤ fitTotal s ∧ fitTotal s ≤ 100 ∧
    fitTotal s = ((fitRules s).map (fun r => r.2.score)).sum ∧
    (fitRules s).length = 8 ∧
    ∀ r ∈ fitRules s, r.2.penalty = r.2.weight - r.2.score ∧
      0 ≤ r.2.score ∧ r.2.score ≤ r.2.weight := by
  have e1 := roundPair 1800 ⟨900, by norm_num⟩ 18 (check_symmetry_distance_weighted s)
    (max 0 (18 - check_symmetry_distance_weighted s)) (by norm_num)
    (by rw [max_eq_right (sub_nonneg.mpr (check_symmetry_le s))]; ring)
    (check_symmetry_nonneg s) (le_max_left 0 _)
  have e2 := roundPair 1200 ⟨600, by norm_num⟩ 12 (check_balance_45 s)
    (max 0 (12 - check_balance_45 s)) (by norm_num)
    (by rw [max_eq_right (sub_nonneg.mpr (check_balance_le s))]; ring)
    (check_balance_nonneg s) (le_max_left 0 _)
  have e3 := roundPair 1300 ⟨650, by norm_num⟩ 13 (check_percentage_rule s)
    (max 0 (13 - check_percentage_rule s)) (by norm_num)
    (by rw [max_eq_right (sub_nonneg.mpr (check_percentage_le s))]; ring)
    (check_percentage_nonneg s) (le_max_left 0 _)
  have e4 := roundPair 1200 ⟨600, by norm_num⟩ 12 (12 - check_external_plies s)
    (check_external_plies s) (by norm_num) (by ring)
    (sub_nonneg.mpr (check_external_le s)) (check_external_nonneg s)
  have e5 := roundPair 1400 ⟨700, by norm_num⟩ 14 (check_distribution_variance s)
    (max 0 (14 - check_distribution_variance s)) (by norm_num)
    (by rw [max_eq_right (sub_nonneg.mpr (check_distribution_le s))]; ring)
    (check_distribution_nonneg s) (le_max_left 0 _)
  have e6 := roundPair 2050 ⟨1025, by norm_num⟩ 20.5 (check_grouping s)
    (max 0 (20.5 - check_grouping s)) (by norm_num)
    (by rw [max_eq_right (sub_nonneg.mpr (check_grouping_le s))]; ring)
    (check_grouping_nonneg s) (le_max_left 0 _)
  have e7 := roundPair 350 ⟨175, by norm_num⟩ 3.5 (check_buckling s)
    (max 0 (3.5 - check_buckling s)) (by norm_num)
    (by rw [max_eq_right (sub_nonneg.mpr (check_buckling_le s))]; ring)
    (check_buckling_nonneg s) (le_max_left 0 _)
  have e8 := roundPair 700 ⟨350, by norm_num⟩ 7 (check_lateral_bending s)
    (max 0 (7 - check_lateral_bending s)) (by norm_num)
    (by rw [max_eq_right (sub_nonneg.mpr (check_lateral_le s))]; ring)
    (check_lateral_nonneg s) (le_max_left 0 _)
  rw [fitTotal_of_ok s hne hok, fitRules_of_ok s hne hok]
  simp only [softTotal, softRules, List.map_cons, List.map_nil, List.sum_cons,
    List.sum_nil, List.length_cons, List.length_nil]
  refine ⟨?_, ?_, trivial, trivial, ?_⟩
  · linarith [e1.2.1, e2.2.1, e3.2.1, e4.2.1, e5.2.1, e6.2.1, e7.2.1, e8.2.1]
  · linarith [e1.2.2, e2.2.2, e3.2.2, e4.2.2, e5.2.2, e6.2.2, e7.2.2, e8.2.2]
  · intro r hr
    simp only [List.mem_cons, List.not_mem_nil, or_false] at hr
    rcases hr with h | h | h | h | h | h | h | h <;> subst h <;>
      exact ⟨by simpa using (by first
        | exact e1.1 | exact e2.1 | exact e3.1 | exact e4.1
        | exact e5.1 | exact e6.1 | exact e7.1 | exact e8.1), by first
        | exact e1.2.1 | exact e2.2.1 | exact e3.2.1 | exact e4.2.1
        | exact e5.2.1 | exact e6.2.1 | exact e7.2.1 | exact e8.2.1, by first
        | exact e1.2.2 | exact e2.2.2 | exact e3.2.2 | exact e4.2.2
        | exact e5.2.2 | exact e6.2.2 | exact e7.2.2 | exact e8.2.2⟩

/-- C3 witness at a concrete hard-constraint-passing sequence. -/
theorem soft_scores_well_formed_witness :
    (fitRules [45, -45, -45, 45]).length = 8 :=
  (soft_scores_well_formed [45, -45, -45, 45] (by decide) (by decide)).2.2.2.1

/-! ## C1 — hard-fail detection -/

/-- C1: for every non-empty sequence, `calculate_fitness` returns total 0 with
a single synthetic (weight-999) rule entry if and only if the sequence
violates a hard constraint: an endpoint 0° ply, a 0°/90° adjacency, or (when
the sequence has at least four plies) a non-±45 outer ply; soft rules never
appear in that breakdown. -/
theorem hard_fail_iff_violation (s : List ℤ) (hne : s ≠ []) :
    (fitTotal s = 0 ∧ (fitRules s).length = 1 ∧ ∀ r ∈ fitRules s, r.2.weight = 999) ↔
      HardViolation s := by
  constructor
  · rintro ⟨htot, hlen, hw⟩
    by_contra hviol
    have hok : hardFailB s = false := by
      cases hb : hardFailB s
      · rfl
      · exact absurd ((hardFailB_iff s).mp hb) hviol
    rw [fitRules_of_ok s hne hok] at hlen
    simp [softRules] at hlen
  · intro hviol
    have hb : hardFailB s = true := (hardFailB_iff s).mpr hviol
    unfold fitTotal fitRules calculate_fitness
    rw [if_neg hne]
    by_cases h1 : endpoint0B s = true
    · rw [if_pos h1]
      exact ⟨rfl, rfl, by intro r hr; simp [hardFailBreakdown] at hr; rw [hr]⟩
    · rw [if_neg h1]
      by_cases h2 : adj09B s = true
      · rw [if_pos h2]
        exact ⟨rfl, rfl, by intro r hr; simp [hardFailBreakdown] at hr; rw [hr]⟩
      · rw [if_neg h2]
        by_cases h3 : outerNot45B s = true
        · rw [if_pos h3]
          exact ⟨rfl, rfl, by intro r hr; simp [hardFailBreakdown] at hr; rw [hr]⟩
        · exfalso
          unfold hardFailB at hb
          rw [Bool.not_eq_true] at h1 h2 h3
          rw [h1, h2, h3] at hb
          simp at hb

/-- C1 witness at the concrete violating sequence `[0]`. -/
theorem hard_fail_iff_violation_witness :
    (fitTotal [0] = 0 ∧ (fitRules [0]).length = 1 ∧
      ∀ r ∈ fitRules [0], r.2.weight = 999) ↔ HardViolation [0] :=
  hard_fail_iff_violation [0] (by decide)

/-! ## C10 — totality of the evaluator -/

/-- C10 counterexample: on the empty sequence the Python code raises
`IndexError` at `sequence[0]` (modelled as `none`), so the evaluator is not
total on all inputs. -/
theorem calculate_fitness_empty_none : calculate_fitness [] = none := by
  unfold calculate_fitness
  rw [if_pos rfl]

/-- C10 amended: the evaluator is total on every NON-EMPTY sequence,
including lengths 1, 2, 3. -/
theorem calculate_fitness_total_on_nonempty (s : List ℤ) (hne : s ≠ []) :
    (calculate_fitness s).isSome = true := by
  unfold calculate_fitness
  rw [if_neg hne]
  split_ifs <;> rfl

/-- C10 witness at the one-ply sequence. -/
theorem calculate_fitness_total_on_nonempty_witness :
    (calculate_fitness [45]).isSome = true :=
  calculate_fitness_total_on_nonempty [45] (by decide)

/-! ## C6 — Rule R2 divisor: floored, not exact, half -/

/-- Rule R2 penalty as the spec's words state it: weight × min(1, d / max(1,
(count(+45)+count(−45))/2)) with the division EXACT (not floored). Second
definition kept for comparison with the source's `check_balance_45`. -/
noncomputable def balance45_specExactHalf (s : List ℤ) : ℝ :=
  let diff : ℕ := ((s.count 45 : ℤ) - (s.count (-45) : ℤ)).natAbs
  let total45 : ℕ := s.count 45 + s.count (-45)
  if 0 < total45 then 12 * min 1 ((diff : ℝ) / max 1 ((total45 : ℝ) / 2)) else 0

/-- C6 counterexample: on `[45, 45, -45]` (odd ±45 total 3) the code divides
by the floored half 1 and returns the full penalty 12, while the spec's exact
half 1.5 would give 8. -/
theorem balance_floor_vs_exact_half :
    check_balance_45 [45, 45, -45] = 12 ∧
    balance45_specExactHalf [45, 45, -45] = 8 ∧ (12 : ℝ) ≠ 8 := by
  have hc1 : ([45, 45, -45] : List ℤ).count 45 = 2 := rfl
  have hc2 : ([45, 45, -45] : List ℤ).count (-45) = 1 := rfl
  refine ⟨?_, ?_, by norm_num⟩
  · simp only [check_balance_45, hc1, hc2]
    norm_num
  · simp only [balance45_specExactHalf, hc1, hc2]
    norm_num

/-- C6 amended: the evaluator's divisor is the floored half
`total_45_count // 2`; it agrees with the spec's exact-half formula exactly
when the ±45 total is even. -/
theorem balance_exact_half_on_even_total (s : List ℤ)
    (he : Even (s.count 45 + s.count (-45))) :
    check_balance_45 s = balance45_specExactHalf s := by
  obtain ⟨k, hk⟩ := he
  simp only [check_balance_45, balance45_specExactHalf]
  rw [hk]
  have hdiv : (k + k) / 2 = k := by omega
  rw [hdiv]
  have hcast : ((max 1 k : ℕ) : ℝ) = max 1 (((k + k : ℕ) : ℝ) / 2) := by
    have h2 : (((k + k : ℕ)) : ℝ) / 2 = ((k : ℕ) : ℝ) := by push_cast; ring
    rw [h2, Nat.cast_max]
    norm_num
  rw [hcast]

/-- C6 amended-claim witness on an even ±45 total. -/
theorem balance_exact_half_on_even_total_witness :
    check_balance_45 [45, -45] = balance45_specExactHalf [45, -45] :=
  balance_exact_half_on_even_total [45, -45] (by decide)

/-! ## C8 — grouping filter of the drop-off searches -/

/-- Grouping acceptance filter of `optimize_drop` (reject when
`groups_of_4 + groups_of_5 > 0` or `groups_of_3 > 3`). -/
def groupingCheckDrop (s : List ℤ) : Bool :=
  decide (findGroupsOfSize s 4 + findGroupsOfSize s 5 = 0) &&
  decide (findGroupsOfSize s 3 ≤ 3)

/-- Grouping acceptance filter of `optimize_drop_with_angle_targets` (reject
when `groups_of_4 + groups_of_5 > 0` or `groups_of_3 > 4`). -/
def groupingCheckAngleTargets (s : List ℤ) : Bool :=
  decide (findGroupsOfSize s 4 + findGroupsOfSize s 5 = 0) &&
  decide (findGroupsOfSize s 3 ≤ 4)

/-- C8 counterexample: a run of six identical plies passes both grouping
filters (they count only runs of length exactly 4 and exactly 5), although
its maximal run length is 6 ≥ 4. -/
theorem grouping_filter_passes_run_of_six :
    groupingCheckDrop [45, 45, 45, 45, 45, 45] = true ∧
    groupingCheckAngleTargets [45, 45, 45, 45, 45, 45] = true ∧
    runLengths [45, 45, 45, 45, 45, 45] = [6] := by
  decide

/-- C8 amended: the drop-off grouping filters accept exactly the candidates
with no maximal run of length 4 or 5 and at most 3 (resp. 4 in the per-angle
target search) maximal runs of length exactly 3; runs of length ≥ 6 are not
rejected. -/
theorem grouping_filter_characterization (s : List ℤ) :
    (groupingCheckDrop s = true ↔
      ((runLengths s).count 4 = 0 ∧ (runLengths s).count 5 = 0 ∧
        (runLengths s).count 3 ≤ 3)) ∧
    (groupingCheckAngleTargets s = true ↔
      ((runLengths s).count 4 = 0 ∧ (runLengths s).count 5 = 0 ∧
        (runLengths s).count 3 ≤ 4)) := by
  unfold groupingCheckDrop groupingCheckAngleTargets
  rw [findGroupsOfSize_eq_count s 4, findGroupsOfSize_eq_count s 5,
    findGroupsOfSize_eq_count s 3]
  simp only [Bool.and_eq_true, decide_eq_true_eq]
  omega

/-! ## C9 — the ranking total sums rounded, not raw, scores -/

/-- The exact (un-rounded) sum of the eight rule scores `max(0, wk − pk)`,
the value C9 claims the evaluator returns for ranking. -/
noncomputable def exactScoreSum (s : List ℤ) : ℝ :=
  ∑ k ∈ Finset.range 8, rawScore s k

/-- Sequence exhibiting a rounding gap: two of its rule scores have more than
two decimals. -/
def c9seq : List ℤ := [45, -45, 0, 45, 45]

theorem abs_sub_eval (a b : ℝ) (h : a ≤ b) : |a - b| = b - a := by
  rw [abs_sub_comm, abs_of_nonneg (by linarith)]

theorem c9_p1 : check_symmetry_distance_weighted c9seq = 9 := by
  simp only [check_symmetry_distance_weighted, c9seq]
  rw [show ([45, -45, 0, 45, 45] : List ℤ).length = 5 from rfl]
  rw [show (5 : ℕ) / 2 = 2 from rfl]
  rw [Finset.sum_range_succ, Finset.sum_range_succ, Finset.sum_range_zero]
  rw [if_neg (by decide), if_pos (by decide)]
  have h5 : ((5 : ℕ) : ℝ) = 5 := by norm_num
  rw [h5]
  rw [show ((5 : ℝ) - 1) / 2 = 2 by norm_num]
  rw [abs_sub_eval _ _ (by norm_num), max_eq_right (by norm_num : (1:ℝ) ≤ 2)]
  rw [min_eq_left (by norm_num)]
  norm_num

theorem c9_p2 : check_balance_45 c9seq = 12 := by
  simp only [check_balance_45, c9seq]
  rw [show ([45, -45, 0, 45, 45] : List ℤ).count 45 = 3 from rfl,
    show ([45, -45, 0, 45, 45] : List ℤ).count (-45) = 1 from rfl]
  norm_num

theorem c9_ratio0 : angleRatio c9seq 0 = 1 / 5 := by
  unfold angleRatio
  rw [if_pos (by decide : 0 < c9seq.length)]
  rw [show c9seq.count 0 = 1 from rfl, show c9seq.length = 5 from rfl]
  norm_num

theorem c9_ratio45 : angleRatio c9seq 45 = 3 / 5 := by
  unfold angleRatio
  rw [if_pos (by decide : 0 < c9seq.length)]
  rw [show c9seq.count 45 = 3 from rfl, show c9seq.length = 5 from rfl]
  norm_num

theorem c9_ratiom45 : angleRatio c9seq (-45) = 1 / 5 := by
  unfold angleRatio
  rw [if_pos (by decide : 0 < c9seq.length)]
  rw [show c9seq.count (-45) = 1 from rfl, show c9seq.length = 5 from rfl]
  norm_num

theorem c9_ratio90 : angleRatio c9seq 90 = 0 := by
  unfold angleRatio
  rw [if_pos (by decide : 0 < c9seq.length)]
  rw [show c9seq.count 90 = 0 from rfl]
  norm_num

theorem c9_p3 : check_percentage_rule c9seq = 13 / 4 := by
  simp only [check_percentage_rule, List.map_cons, List.map_nil, List.sum_cons,
    List.sum_nil]
  rw [c9_ratio0, c9_ratio45, c9_ratiom45, c9_ratio90]
  rw [if_neg (by norm_num), if_neg (by norm_num), if_pos (by norm_num)]
  norm_num

theorem c9_s4 : check_external_plies c9seq = 51 / 5 := by
  simp only [check_external_plies, c9seq]
  rw [if_neg (by decide : ¬([45, -45, 0, 45, 45] : List ℤ).length < 2)]
  rw [if_neg (by decide), if_pos (by decide)]
  rw [max_eq_right (by norm_num)]
  norm_num

theorem c9_npStd : npStd [3, 1] = 1 := by
  unfold npStd npMean
  norm_num

theorem c9_dist0 : distAngleContribution c9seq 0 = 0 := by
  simp only [distAngleContribution]
  rw [show positionsOf c9seq 0 = [2] from rfl]
  norm_num

theorem c9_dist45 : distAngleContribution c9seq 45 = 63 / 50 := by
  simp only [distAngleContribution]
  rw [show positionsOf c9seq 45 = [0, 3, 4] from rfl]
  rw [show npDiff [0, 3, 4] = [3, 1] from rfl]
  rw [if_pos (by decide : 1 < ([0, 3, 4] : List ℕ).length),
    if_pos (by decide : 0 < ([3, 1] : List ℤ).length)]
  rw [c9_npStd]
  rw [show c9seq.length = 5 from rfl]
  rw [show ([0, 3, 4] : List ℕ).getLast?.getD 0 = 4 from rfl,
    show ([0, 3, 4] : List ℕ).headD 0 = 0 from rfl,
    show (max 1 (5 - 1) : ℕ) = 4 from rfl,
    show ([0, 3, 4] : List ℕ).length = 3 from rfl]
  push_cast
  rw [max_eq_left (by norm_num : (1:ℝ) ≤ 5 / 3)]
  rw [min_eq_right (by norm_num : (1 : ℝ) / (5 / 3) ≤ 1)]
  rw [if_neg (by norm_num)]
  norm_num

theorem c9_distm45 : distAngleContribution c9seq (-45) = 0 := by
  simp only [distAngleContribution]
  rw [show positionsOf c9seq (-45) = [1] from rfl]
  norm_num

theorem c9_dist90 : distAngleContribution c9seq 90 = 0 := by
  simp only [distAngleContribution]
  rw [show positionsOf c9seq 90 = ([] : List ℕ) from rfl]
  norm_num

theorem c9_p5 : check_distribution_variance c9seq = 63 / 50 := by
  simp only [check_distribution_variance, List.map_cons, List.map_nil,
    List.sum_cons, List.sum_nil]
  rw [c9_dist0, c9_dist45, c9_distm45, c9_dist90]
  norm_num

theorem c9_p6 : check_grouping c9seq = 41 / 16 := by
  simp only [check_grouping, c9seq]
  rw [show groupStatsOf [45, -45, 0, 45, 45] = (2, 1, 0) from rfl]
  rw [show findGroupsOfSize [45, -45, 0, 45, 45] 3 = 0 from rfl]
  rw [show ([45, -45, 0, 45, 45] : List ℤ).length = 5 from rfl]
  norm_num

theorem c9_mid0 : midDist 5 0 = 1 := by
  unfold midDist
  have h5 : ((5 : ℕ) : ℝ) = 5 := by norm_num
  rw [h5, show ((5 : ℝ) - 1) / 2 = 2 by norm_num,
    abs_sub_eval _ _ (by norm_num), max_eq_right (by norm_num : (1:ℝ) ≤ 2)]
  norm_num

theorem c9_mid1 : midDist 5 1 = 1 / 2 := by
  unfold midDist
  have h5 : ((5 : ℕ) : ℝ) = 5 := by norm_num
  rw [h5, show ((5 : ℝ) - 1) / 2 = 2 by norm_num,
    abs_sub_eval _ _ (by norm_num), max_eq_right (by norm_num : (1:ℝ) ≤ 2)]
  norm_num

theorem c9_mid3 : midDist 5 3 = 1 / 2 := by
  unfold midDist
  have h5 : ((5 : ℕ) : ℝ) = 5 := by norm_num
  rw [h5, show ((5 : ℝ) - 1) / 2 = 2 by norm_num,
    abs_of_nonneg (by norm_num : (0:ℝ) ≤ (3:ℕ) - 2),
    max_eq_right (by norm_num : (1:ℝ) ≤ 2)]
  norm_num

theorem c9_mid4 : midDist 5 4 = 1 := by
  unfold midDist
  have h5 : ((5 : ℕ) : ℝ) = 5 := by norm_num
  rw [h5, show ((5 : ℝ) - 1) / 2 = 2 by norm_num,
    abs_of_nonneg (by norm_num : (0:ℝ) ≤ (4:ℕ) - 2),
    max_eq_right (by norm_num : (1:ℝ) ≤ 2)]
  norm_num

theorem c9_p7 : check_buckling c9seq = 0 := by
  simp only [check_buckling]
  rw [show pos45of c9seq = [0, 1, 3, 4] from rfl]
  rw [if_neg (by decide)]
  rw [show c9seq.length = 5 from rfl]
  simp only [List.map_cons, List.map_nil, List.sum_cons, List.sum_nil]
  unfold bucklingTerm
  rw [c9_mid0, c9_mid1, c9_mid3, c9_mid4]
  rw [if_neg (by norm_num : ¬(1:ℝ) < 0.15), if_neg (by norm_num : ¬(1:ℝ)/2 < 0.15)]
  rw [show ([0, 1, 3, 4] : List ℕ).length = 4 from rfl]
  norm_num

theorem c9_p8 : check_lateral_bending c9seq = 0 := by
  simp only [check_lateral_bending]
  rw [if_pos (show positionsOf c9seq 90 = [] from rfl)]

theorem pyRound2_cast_eval (m : ℤ) (x : ℝ) (h : x = (m : ℝ) / 100) :
    pyRound2 x = (m : ℝ) / 100 := by
  rw [h, pyRound2_int_div]

/-- C9 counterexample: on `c9seq` the evaluator's ranking total is 70.13 (the
sum of the per-rule scores, each already rounded to two decimals), while the
exact un-rounded sum of `max(0, wk − pk)` is 70.1275 — so the ranking value
is NOT the exact sum. -/
theorem ranking_total_vs_exact_sum_ce :
    fitTotal c9seq = 7013 / 100 ∧ exactScoreSum c9seq = 28051 / 400 ∧
    (7013 / 100 : ℝ) ≠ 28051 / 400 := by
  have hne : c9seq ≠ [] := by decide
  have hok : hardFailB c9seq = false := by decide
  have hr1 : pyRound2 (max 0 (18 - check_symmetry_distance_weighted c9seq)) = 9 := by
    rw [c9_p1, show max (0:ℝ) (18 - 9) = ((900 : ℤ) : ℝ) / 100 by
      rw [max_eq_right (by norm_num)]; norm_num, pyRound2_int_div]
    norm_num
  have hr2 : pyRound2 (max 0 (12 - check_balance_45 c9seq)) = 0 := by
    rw [c9_p2, show max (0:ℝ) (12 - 12) = ((0 : ℤ) : ℝ) / 100 by
      norm_num, pyRound2_int_div]
    norm_num
  have hr3 : pyRound2 (max 0 (13 - check_percentage_rule c9seq)) = 39 / 4 := by
    rw [c9_p3, show max (0:ℝ) (13 - 13 / 4) = ((975 : ℤ) : ℝ) / 100 by
      rw [max_eq_right (by norm_num)]; norm_num, pyRound2_int_div]
    norm_num
  have hr4 : pyRound2 (check_external_plies c9seq) = 51 / 5 := by
    rw [c9_s4, show (51 : ℝ) / 5 = ((1020 : ℤ) : ℝ) / 100 by norm_num,
      pyRound2_int_div]
  have hr5 : pyRound2 (max 0 (14 - check_distribution_variance c9seq)) = 637 / 50 := by
    rw [c9_p5, show max (0:ℝ) (14 - 63 / 50) = ((1274 : ℤ) : ℝ) / 100 by
      rw [max_eq_right (by norm_num)]; norm_num, pyRound2_int_div]
    norm_num
  have hr6 : pyRound2 (max 0 (20.5 - check_grouping c9seq)) = 897 / 50 := by
    rw [c9_p6]
    unfold pyRound2
    rw [show (100 : ℝ) * max 0 (20.5 - 41 / 16) = ((1793 : ℤ) : ℝ) + 3 / 4 by
      rw [max_eq_right (by norm_num)]; norm_num]
    rw [rhe_intCast_add_of_gt_half 1793 (3 / 4) (by norm_num) (by norm_num)]
    norm_num
  have hr7 : pyRound2 (max 0 (3.5 - check_buckling c9seq)) = 7 / 2 := by
    rw [c9_p7, show max (0:ℝ) (3.5 - 0) = ((350 : ℤ) : ℝ) / 100 by
      rw [max_eq_right (by norm_num)]; norm_num, pyRound2_int_div]
    norm_num
  have hr8 : pyRound2 (max 0 (7 - check_lateral_bending c9seq)) = 7 := by
    rw [c9_p8, show max (0:ℝ) (7 - 0) = ((700 : ℤ) : ℝ) / 100 by
      rw [max_eq_right (by norm_num)]; norm_num, pyRound2_int_div]
    norm_num
  refine ⟨?_, ?_, by norm_num⟩
  · rw [fitTotal_of_ok c9seq hne hok]
    simp only [softTotal, softRules, List.map_cons, List.map_nil, List.sum_cons,
      List.sum_nil]
    rw [hr1, hr2, hr3, hr4, hr5, hr6, hr7, hr8]
    norm_num
  · unfold exactScoreSum
    rw [Finset.sum_range_succ, Finset.sum_range_succ, Finset.sum_range_succ,
      Finset.sum_range_succ, Finset.sum_range_succ, Finset.sum_range_succ,
      Finset.sum_range_succ, Finset.sum_range_succ, Finset.sum_range_zero]
    simp only [rawScore, rawPenalties, ruleWeights, List.getD_cons_zero,
      List.getD_cons_succ]
    rw [c9_p1, c9_p2, c9_p3, c9_s4, c9_p5, c9_p6, c9_p7, c9_p8]
    rw [max_eq_right (by norm_num : (0:ℝ) ≤ 18 - 9),
      max_eq_right (by norm_num : (0:ℝ) ≤ 12 - 12),
      max_eq_right (by norm_num : (0:ℝ) ≤ 13 - 13 / 4),
      max_eq_right (by norm_num : (0:ℝ) ≤ 12 - (12 - 51 / 5)),
      max_eq_right (by norm_num : (0:ℝ) ≤ 14 - 63 / 50),
      max_eq_right (by norm_num : (0:ℝ) ≤ 20.5 - 41 / 16),
      max_eq_right (by norm_num : (0:ℝ) ≤ 3.5 - 0),
      max_eq_right (by norm_num : (0:ℝ) ≤ 7 - 0)]
    norm_num

/-- C9 amended: the ranking total equals the sum of the eight per-rule scores
EACH ROUNDED to two decimals first, and the reported breakdown total is that
sum rounded again; the exact un-rounded sum is not what is returned. -/
theorem ranking_total_eq_sum_rounded (s : List ℤ) (hne : s ≠ [])
    (hok : hardFailB s = false) :
    fitTotal s = ∑ k ∈ Finset.range 8, pyRound2 (rawScore s k) ∧
    fitReportedTotal s = pyRound2 (fitTotal s) := by
  constructor
  · rw [fitTotal_of_ok s hne hok]
    simp only [softTotal, softRules, List.map_cons, List.map_nil, List.sum_cons,
      List.sum_nil]
    rw [Finset.sum_range_succ, Finset.sum_range_succ, Finset.sum_range_succ,
      Finset.sum_range_succ, Finset.sum_range_succ, Finset.sum_range_succ,
      Finset.sum_range_succ, Finset.sum_range_succ, Finset.sum_range_zero]
    simp only [rawScore, rawPenalties, ruleWeights, List.getD_cons_zero,
      List.getD_cons_succ]
    rw [show 12 - (12 - check_external_plies s) = check_external_plies s by ring,
      max_eq_right (check_external_nonneg s)]
    ring
  · rw [fitReportedTotal_of_ok s hne hok, fitTotal_of_ok s hne hok]

/-- C9 amended-claim witness. -/
theorem ranking_total_eq_sum_rounded_witness :
    fitReportedTotal [45, -45, -45, 45] = pyRound2 (fitTotal [45, -45, -45, 45]) :=
  (ranking_total_eq_sum_rounded [45, -45, -45, 45] (by decide) (by decide)).2

/-! ## DropOffOptimizer: association-list dictionary helpers -/

/-- Keys of a list in first-occurrence order (Python `Counter` key order). -/
def firstOccurrences : List ℤ → List ℤ
  | [] => []
  | a :: rest => a :: (firstOccurrences rest).filter (fun b => !(b == a))

/-- `collections.Counter` of a sequence, as an insertion-ordered dict. -/
def counterOf (s : List ℤ) : List (ℤ × ℕ) :=
  (firstOccurrences s).map (fun a => (a, s.count a))

/-- Python dict assignment `d[k] = v`: update in place, else append. -/
def assocSet {α : Type} : List (ℤ × α) → ℤ → α → List (ℤ × α)
  | [], k, v => [(k, v)]
  | (k', v') :: rest, k, v =>
    if k' = k then (k', v) :: rest else (k', v') :: assocSet rest k v

/-- `d[k] -= 1`, then `del d[k]` when the value reaches 0. -/
def decDel : List (ℤ × ℕ) → ℤ → List (ℤ × ℕ)
  | [], _ => []
  | (k', v) :: rest, k =>
    if k' = k then (if v - 1 = 0 then rest else (k', v - 1) :: rest)
    else (k', v) :: decDel rest k

/-- `d.setdefault(k, []).extend(vs)`. -/
def appendAt : List (ℤ × List ℕ) → ℤ → List ℕ → List (ℤ × List ℕ)
  | [], k, vs => [(k, vs)]
  | (k', l) :: rest, k, vs =>
    if k' = k then (k', l ++ vs) :: rest else (k', l) :: appendAt rest k vs

/-! ## DropOffOptimizer: errors and oracles -/

/-- The two `ValueError`s raised by the target validation. -/
inductive DropError where
  | exceed : ℤ → ℤ → ℕ → DropError
  | negative : ℤ → ℤ → DropError
deriving DecidableEq

/-- The message carried by each validation error. -/
def errMessage : DropError → String
  | .exceed angle tgt cur =>
      "Angle " ++ toString angle ++ "°: hedef " ++ toString tgt ++
        " ama mevcut sadece " ++ toString cur ++ " katman var"
  | .negative angle _ =>
      "Angle " ++ toString angle ++ "°: hedef sayı negatif olamaz"

/-- How a call can fail: an intended `ValueError`, or an unintended crash
(`IndexError` from `calculate_fitness` on an empty list). -/
inductive RunErr where
  | valueError : DropError → RunErr
  | crash : RunErr
deriving DecidableEq

/-- One random attempt's draws. Each draw is validated where it is used, so
every concrete execution of the Python code corresponds to some choice. -/
structure AttemptChoice where
  preferGrouped : Bool
  selGrouped : ℤ → List ℕ
  selUngrouped : ℤ → List ℕ
  selPlain : ℤ → List ℕ
  breakSel : ℕ
  singleSel : ℤ → ℕ
  fixOrd : ℕ → List ℕ

/-- `random.sample(pop, k)`: accept the proposed selection when it is a
`k`-subset of the population, otherwise default deterministically. -/
def sampleFrom (pop : List ℕ) (k : ℕ) (proposal : List ℕ) : List ℕ :=
  if proposal.length = k ∧ proposal.Nodup ∧ proposal.all (fun x => pop.contains x)
  then proposal else pop.take k

/-- `random.choice(pop)`: accept the proposed element when it is in the
population, otherwise default deterministically. -/
def choiceFrom (pop : List ℕ) (proposal : ℕ) : ℕ :=
  if proposal ∈ pop then proposal else pop.headD 0

/-- `random.shuffle(range(n))`: accept a proposed permutation of `range n`. -/
def validPerm (n : ℕ) (proposal : List ℕ) : List ℕ :=
  if proposal.Perm (List.range n) then proposal else List.range n

/-! ## `_fix_adjacent_0_90` (swap-based 0°/90° adjacency repair) -/

/-- Is the pair `(a, b)` a forbidden 0°/90° adjacency? -/
def isViol (a b : ℤ) : Bool := (a == 0 && b == 90) || (a == 90 && b == 0)

/-- Swap the entries at positions `i` and `j`. -/
def swapPos (seq : List ℤ) (i j : ℕ) : List ℤ :=
  (seq.set i (seq.getD j 0)).set j (seq.getD i 0)

/-- Try to swap position `i+1` with each candidate `j` in the shuffled order,
keeping the first swap that creates no local 0°/90° violation. -/
def trySwapAt (seq : List ℤ) (i : ℕ) : List ℕ → Option (List ℤ)
  | [] => none
  | j :: rest =>
    if j = i ∨ j = i + 1 then trySwapAt seq i rest
    else
      let s' := swapPos seq (i + 1) j
      let ok :=
        (!(decide (i + 1 < seq.length)) || !(isViol (s'.getD i 0) (s'.getD (i + 1) 0))) &&
        (!(decide (0 < j)) || !(isViol (s'.getD (j - 1) 0) (s'.getD j 0))) &&
        (!(decide (j < seq.length - 1)) || !(isViol (s'.getD j 0) (s'.getD (j + 1) 0)))
      if ok then some s' else trySwapAt seq i rest

/-- One scan of the repair loop: at the first violating index admitting a
successful swap, return the swapped sequence. -/
def fixPassAux (seq : List ℤ) (order : List ℕ) : List ℕ → Option (List ℤ)
  | [] => none
  | i :: rest =>
    if isViol (seq.getD i 0) (seq.getD (i + 1) 0) then
      match trySwapAt seq i order with
      | some s' => some s'
      | none => fixPassAux seq order rest
    else fixPassAux seq order rest

/-- One pass over all adjacent pairs. -/
def fixPass (seq : List ℤ) (order : List ℕ) : Option (List ℤ) :=
  fixPassAux seq order (List.range (seq.length - 1))

/-- The bounded `while` loop of `_fix_adjacent_0_90`. -/
def fixLoop (fo : ℕ → List ℕ) : ℕ → ℕ → List ℤ → List ℤ
  | 0, _, seq => seq
  | fuel + 1, iter, seq =>
    match fixPass seq (validPerm seq.length (fo iter)) with
    | none => seq
    | some s' => fixLoop fo fuel (iter + 1) s'

/-- `LaminateOptimizer._fix_adjacent_0_90` with the shuffles drawn from the
oracle `fo` (`max_attempts = len(seq) * 3`). -/
def fix_adjacent_0_90 (fo : ℕ → List ℕ) (seq : List ℤ) : List ℤ :=
  fixLoop fo (seq.length * 3) 0 seq

/-! ## `optimize_drop_with_angle_targets`: validation and preamble -/

/-- The validation loop over the target map (first offending entry wins). -/
def validateTargets (targets : List (ℤ × ℤ)) (counts : List (ℤ × ℕ)) :
    Option DropError :=
  match targets with
  | [] => none
  | (a, t) :: rest =>
    let cur : ℕ := (counts.lookup a).getD 0
    if (cur : ℤ) < t then some (.exceed a t cur)
    else if t < 0 then some (.negative a t)
    else validateTargets rest counts

/-- `drops_needed`: the per-angle surplus of the parent over the target. -/
def dropsNeeded0 (targets : List (ℤ × ℤ)) (counts : List (ℤ × ℕ)) :
    List (ℤ × ℕ) :=
  targets.filterMap (fun p =>
    let cur : ℕ := (counts.lookup p.1).getD 0
    if p.2 < (cur : ℤ) then some (p.1, ((cur : ℤ) - p.2).toNat) else none)

/-- Everything the attempt loop needs, computed once before the attempts. -/
structure PreData where
  master : List ℤ
  targets : List (ℤ × ℤ)
  dropsNeeded : List (ℤ × ℕ)
  dropMiddle : Bool
  middleIdx : Option ℕ
  middleAngle : Option ℤ
  breakPair : Bool
  breakPairAngle : Option ℤ
  singleAngles : List ℤ

/-- Parity handling of `optimize_drop_with_angle_targets` (middle-ply drop,
pair breaking, and the odd-delta single-ply bookkeeping). -/
def mkPreData (master : List ℤ) (targets : List (ℤ × ℤ)) (dn0 : List (ℤ × ℕ)) :
    PreData :=
  let n := master.length
  let half := n / 2
  let masterOdd := n % 2 = 1
  let middleIdx : Option ℕ := if masterOdd then some half else none
  let middleAngle : Option ℤ := middleIdx.map (fun i => master.getD i 0)
  let targetTotal : ℤ := (targets.map (fun p => p.2)).sum
  let targetOdd := targetTotal % 2 = 1
  -- odd → even: drop the middle ply; even → odd: break one pair
  let stA :
      List (ℤ × ℕ) × Bool × Bool × Option ℤ :=
    if masterOdd ∧ ¬targetOdd then
      (match middleAngle with
       | some ma => if (dn0.lookup ma).isSome then decDel dn0 ma else dn0
       | none => dn0, true, false, none)
    else if ¬masterOdd ∧ targetOdd then
      match dn0.find? (fun p => p.2 % 2 = 1) with
      | some p => (decDel dn0 p.1, false, true, some p.1)
      | none => (dn0, false, true, (dn0.head?.map (fun p => p.1)))
    else (dn0, false, false, none)
  let dn1 := stA.1
  let dropMiddle0 := stA.2.1
  let breakPair := stA.2.2.1
  let breakPairAngle := stA.2.2.2
  -- odd-delta angles: use the middle ply when possible, else single drops
  let stB :
      List (ℤ × ℕ) × Bool × List ℤ :=
    (dn1.map (fun p => p.1)).foldl
      (fun st angle =>
        let dn := st.1
        let dm := st.2.1
        let singles := st.2.2
        match dn.lookup angle with
        | none => st
        | some v =>
          if v % 2 ≠ 0 then
            if masterOdd ∧ middleAngle = some angle ∧ ¬dm then
              (decDel dn angle, true, singles)
            else (decDel dn angle, dm, singles ++ [angle])
          else st)
      (dn1, dropMiddle0, [])
  { master := master, targets := targets, dropsNeeded := stB.1,
    dropMiddle := stB.2.1, middleIdx := middleIdx, middleAngle := middleAngle,
    breakPair := breakPair, breakPairAngle := breakPairAngle,
    singleAngles := stB.2.2 }

/-- Left-half droppable positions of an angle, protecting positions 0 and 1. -/
def anglePositionsLeft (master : List ℤ) (angle : ℤ) : List ℕ :=
  ((List.range (master.length / 2)).filter
    (fun i => master.getD i 0 == angle)).filter (fun p => 1 < p)

/-- Among those, the positions adjacent to an identical angle. -/
def angleGroupedLeft (master : List ℤ) (angle : ℤ) : List ℕ :=
  (anglePositionsLeft master angle).filter (fun p =>
    decide ((0 < p ∧ master.getD (p - 1) 0 = angle) ∨
      (p < master.length - 1 ∧ master.getD (p + 1) 0 = angle)))

/-- All droppable positions of an angle for asymmetric single-ply drops. -/
def anglePositionsAll (master : List ℤ) (angle : ℤ) : List ℕ :=
  ((List.range master.length).filter (fun i => master.getD i 0 == angle)).filter
    (fun p => decide (1 < p ∧ p < master.length - 2))

/-! ## The randomized attempt loop (3000 attempts) -/

/-- A candidate accepted by the attempt loop's quality gates. -/
structure Accepted where
  seq : List ℤ
  score : ℝ
  g3 : ℕ
  dropped : List (ℤ × List ℕ)

/-- The per-angle left-half pair-drop selection of one attempt
(`for angle, drop_count in drops_needed.items()`); `none` = invalid attempt. -/
def selectLeftDrops (master : List ℤ) (c : AttemptChoice) :
    List (ℤ × ℕ) → Option (List (ℤ × List ℕ))
  | [] => some []
  | (angle, dropCount) :: rest =>
    let pairsNeeded := dropCount / 2
    let available := anglePositionsLeft master angle
    let grouped := angleGroupedLeft master angle
    if available.length < pairsNeeded then none
    else
      let selected :=
        if c.preferGrouped ∧ grouped ≠ [] then
          (if pairsNeeded ≤ grouped.length then
            sampleFrom grouped pairsNeeded (c.selGrouped angle)
          else
            let ungrouped := available.filter (fun p => !(grouped.contains p))
            let remaining := pairsNeeded - grouped.length
            grouped ++
              (if remaining ≤ ungrouped.length then
                sampleFrom ungrouped remaining (c.selUngrouped angle)
              else ungrouped)).take pairsNeeded
        else sampleFrom available pairsNeeded (c.selPlain angle)
      match selectLeftDrops master c rest with
      | none => none
      | some restSel => some ((angle, sortNat selected) :: restSel)

/-- `any(l[i+1] - l[i] == 1 ...)` on the sorted drop list. -/
def hasConsecutive (l : List ℕ) : Bool :=
  (l.zip l.tail).any (fun p => (p.2 : ℤ) - (p.1 : ℤ) == 1)

/-- The randomness-dependent assembly of one attempt's drop set and per-angle
record; `none` = the attempt is skipped (`continue`). No fitness call here. -/
def attemptAssemble (d : PreData) (c : AttemptChoice) :
    Option (List ℕ × List (ℤ × List ℕ)) :=
  let n := d.master.length
  match selectLeftDrops d.master c d.dropsNeeded with
  | none => none
  | some sels =>
    let allLeft := sortNat (sels.foldl (fun acc p => acc ++ p.2) [])
    if 1 < allLeft.length ∧ hasConsecutive allLeft then none
    else
      let dnKeys := d.dropsNeeded.map (fun p => p.1)
      let allDropAngles :=
        dnKeys ++ d.singleAngles.filter (fun a => !(dnKeys.contains a))
      let dropped0 : List (ℤ × List ℕ) := allDropAngles.map (fun a => (a, []))
      let st1 := sels.foldl
        (fun st p =>
          p.2.foldl (fun st2 idx =>
            (st2.1 ++ [idx, n - 1 - idx], appendAt st2.2 p.1 [idx, n - 1 - idx]))
            st)
        (([] : List ℕ), dropped0)
      let st2 :=
        if d.dropMiddle ∧ d.middleIdx.isSome then
          (st1.1 ++ [d.middleIdx.getD 0],
           appendAt st1.2 (d.middleAngle.getD 0) [d.middleIdx.getD 0])
        else st1
      let st3 :=
        if d.breakPair ∧ d.breakPairAngle.isSome then
          let ba := d.breakPairAngle.getD 0
          let used := (sels.lookup ba).getD []
          let availB := (anglePositionsLeft d.master ba).filter
            (fun p => !(used.contains p))
          if availB.isEmpty then st2
          else
            let bi := choiceFrom availB c.breakSel
            (st2.1 ++ [n - 1 - bi], appendAt st2.2 ba [n - 1 - bi])
        else st2
      let singleRes : Option (List ℕ × List (ℤ × List ℕ)) :=
        d.singleAngles.foldl
          (fun acc sAngle =>
            match acc with
            | none => none
            | some st =>
              let avail := (anglePositionsAll d.master sAngle).filter
                (fun p => !(st.1.contains p))
              if avail.isEmpty then none
              else
                let pos := choiceFrom avail (c.singleSel sAngle)
                some (st.1 ++ [pos], appendAt st.2 sAngle [pos]))
          (some st3)
      match singleRes with
      | none => none
      | some st4 => some (sortNat st4.1, st4.2)

/-- One attempt of the 3000-iteration loop. Outer `none` = crash inside
`calculate_fitness`; `some none` = attempt rejected (`continue`);
`some (some acc)` = candidate passed every gate. -/
noncomputable def attemptCore (d : PreData) (c : AttemptChoice) :
    Option (Option Accepted) :=
  match attemptAssemble d c with
  | none => some none
  | some dr =>
    let tempSeq0 := removeIdxs d.master dr.1
    let tempSeq :=
      if d.singleAngles.isEmpty then tempSeq0
      else fix_adjacent_0_90 c.fixOrd tempSeq0
    match calculate_fitness tempSeq with
    | none => none
    | some r =>
      if r.1 ≤ 0 then some none
      else if !(d.targets.all (fun p => (tempSeq.count p.1 : ℤ) == p.2)) then
        some none
      else if 0 < findGroupsOfSize tempSeq 4 + findGroupsOfSize tempSeq 5 then
        some none
      else if 4 < findGroupsOfSize tempSeq 3 then some none
      else some (some ⟨tempSeq, r.1, findGroupsOfSize tempSeq 3, dr.2⟩)

/-- Keep the candidate with the lexicographically smaller
`(groups_of_3, -score)` key; the accepted record is stored sorted per angle. -/
noncomputable def updateBest (st : Option Accepted) (cand : Accepted) :
    Option Accepted :=
  let sortedCand : Accepted :=
    { cand with dropped := cand.dropped.map (fun p => (p.1, sortNat p.2)) }
  match st with
  | none => some sortedCand
  | some b =>
    if cand.g3 < b.g3 ∨ (cand.g3 = b.g3 ∧ b.score < cand.score) then
      some sortedCand
    else some b

/-- Fold of the attempt loop over the attempt indices. -/
noncomputable def runAttemptsCore (d : PreData) (o : ℕ → AttemptChoice) :
    List ℕ → Option Accepted → Option (Option Accepted)
  | [], st => some st
  | i :: rest, st =>
    match attemptCore d (o i) with
    | none => none
    | some none => runAttemptsCore d o rest st
    | some (some cand) => runAttemptsCore d o rest (updateBest st cand)

/-! ## Shared single-ply phase of the deterministic fallbacks -/

/-- A fallback result: child, score, per-angle removed parent indices. -/
def FallbackRes := List ℤ × ℝ × List (ℤ × List ℕ)

/-- `[i for i in range(2, n - 2) if seq[i] == ang]`. -/
def singleCandidatePositions (seq : List ℤ) (ang : ℤ) : List ℕ :=
  ((List.range (seq.length - 2)).filter (fun i => 2 ≤ i)).filter
    (fun i => seq.getD i 0 == ang)

/-- `itertools.product` over the per-angle position lists. -/
def listProduct : List (List ℕ) → List (List ℕ)
  | [] => [[]]
  | l :: ls => (l.map (fun x => (listProduct ls).map (fun cmb => x :: cmb))).flatten

/-- `for pos in sorted(idxs, reverse=True): s.pop(pos)`. -/
def popIdxsDesc {α : Type} (s : List α) (idxs : List ℕ) : List α :=
  (sortBy (fun a b => b ≤ a) idxs).foldl (fun acc i => acc.eraseIdx i) s

/-- The combo scan of the multi-single-drop phase, keeping the first strictly
better combo; outer `none` = crash in `calculate_fitness`. -/
noncomputable def comboLoop (baseSeq : List ℤ) (fo : ℕ → ℕ → List ℕ) :
    List (List ℕ) → ℕ → Option (List ℕ) → ℝ → Option (Option (List ℕ) × ℝ)
  | [], _, best, bsc => some (best, bsc)
  | combo :: rest, k, best, bsc =>
    if combo.Nodup then
      let temp := fix_adjacent_0_90 (fo k) (removeIdxs baseSeq combo)
      match calculate_fitness temp with
      | none => none
      | some r =>
        if bsc < r.1 then comboLoop baseSeq fo rest (k + 1) (some combo) r.1
        else comboLoop baseSeq fo rest (k + 1) best bsc
    else comboLoop baseSeq fo rest (k + 1) best bsc

/-- The position scan of the one-single-drop phase. -/
noncomputable def singleScan (seq : List ℤ) (ang : ℤ) :
    List ℕ → Option ℕ → ℝ → Option (Option ℕ × ℝ)
  | [], best, bsc => some (best, bsc)
  | i :: rest, best, bsc =>
    if seq.getD i 0 = ang then
      match calculate_fitness (seq.eraseIdx i) with
      | none => none
      | some r =>
        if bsc < r.1 then singleScan seq ang rest (some i) r.1
        else singleScan seq ang rest best bsc
    else singleScan seq ang rest best bsc

/-- Phase 2 of both fallbacks: the asymmetric single-ply drops for odd-delta
angles, operating on (sequence, position map, per-angle record). -/
noncomputable def singlesPhase (angs : List ℤ) (foC : ℕ → ℕ → List ℕ)
    (foF : ℕ → List ℕ) (seq : List ℤ) (posMap : List ℕ)
    (dropped : List (ℤ × List ℕ)) :
    Option (Option (List ℤ × List ℕ × List (ℤ × List ℕ))) :=
  if 2 ≤ angs.length then
    let posLists := angs.map (fun ang => singleCandidatePositions seq ang)
    match comboLoop seq foC (listProduct posLists) 0 none (-1) with
    | none => none
    | some res =>
      match res.1 with
      | none => some none
      | some combo =>
        if res.2 ≤ 0 then some none
        else
          let dropped' := (angs.zip combo).foldl
            (fun dd p => appendAt dd p.1 [posMap.getD p.2 0]) dropped
          some (some (fix_adjacent_0_90 foF (popIdxsDesc seq combo),
            popIdxsDesc posMap combo, dropped'))
  else if angs.length = 1 then
    let ang := angs.headD 0
    match singleScan seq ang
        (((List.range (seq.length - 2)).filter (fun i => 2 ≤ i))) none (-1) with
    | none => none
    | some res =>
      match res.1 with
      | none => some none
      | some p =>
        if res.2 ≤ 0 then some none
        else some (some (seq.eraseIdx p, posMap.eraseIdx p,
          appendAt dropped ang [posMap.getD p 0]))
  else some (some (seq, posMap, dropped))

/-- Common final validation of both fallbacks. -/
noncomputable def finalizeFallback (seq : List ℤ) (dropped : List (ℤ × List ℕ)) :
    Option (Option FallbackRes) :=
  match calculate_fitness seq with
  | none => none
  | some r =>
    if r.1 ≤ 0 then some none
    else some (some (seq, r.1, dropped.map (fun p => (p.1, sortNat p.2))))

/-! ## `_beam_search_angle_target_drop` -/

/-- A beam state: `(score, seq, pos_map, pairs_left, dropped_by_angle)`. -/
def BeamSt := ℝ × List ℤ × List ℕ × List (ℤ × ℕ) × List (ℤ × List ℕ)

/-- Pair / single drop requirements of the beam search; `none` = infeasible. -/
def beamTargets (seqIn : List ℤ) (targets : List (ℤ × ℤ)) :
    Option (List (ℤ × ℕ) × List ℤ) :=
  targets.foldl
    (fun acc p =>
      match acc with
      | none => none
      | some st =>
        let cur : ℕ := seqIn.count p.1
        if (cur : ℤ) < p.2 then none
        else
          let delta : ℕ := ((cur : ℤ) - p.2).toNat
          let pairDelta := if delta % 2 ≠ 0 then delta - 1 else delta
          let singles' :=
            if delta % 2 ≠ 0 then st.2 ++ [p.1] else st.2
          if 0 < pairDelta then some (st.1 ++ [(p.1, pairDelta / 2)], singles')
          else some (st.1, singles'))
    (some ([], []))

/-- Try one symmetric pair drop `(ang, left)` on a beam state. Outer `none` =
crash; `some none` = skipped; `some (some st')` = a new candidate state. -/
noncomputable def beamTryPair (st : BeamSt) (ang : ℤ) (left : ℕ) :
    Option (Option BeamSt) :=
  let seq := st.2.1
  let n := seq.length
  if seq.getD left 0 ≠ ang then some none
  else
    let right := n - 1 - left
    if right = left then some none
    else if seq.getD right 0 ≠ ang then some none
    else
      let pos := st.2.2.1
      let tseq := (seq.eraseIdx right).eraseIdx left
      let tpos := (pos.eraseIdx right).eraseIdx left
      match calculate_fitness tseq with
      | none => none
      | some r =>
        if r.1 ≤ 0 then some none
        else some (some (r.1, tseq, tpos, decDel st.2.2.2.1 ang,
          appendAt st.2.2.2.2 ang [pos.getD left 0, pos.getD right 0]))

/-- All successor states of one beam state, in source iteration order. -/
noncomputable def beamStateChildren (protect : ℕ) (st : BeamSt) :
    Option (List BeamSt) :=
  let seq := st.2.1
  let half := seq.length / 2
  let angs := sortInt ((st.2.2.2.1.filter (fun p => 0 < p.2)).map (fun p => p.1))
  angs.foldl
    (fun acc ang =>
      match acc with
      | none => none
      | some l =>
        ((List.range half).filter (fun i => max protect 0 ≤ i)).foldl
          (fun acc2 left =>
            match acc2 with
            | none => none
            | some l2 =>
              match beamTryPair st ang left with
              | none => none
              | some none => some l2
              | some (some st') => some (l2 ++ [st']))
          (some l))
    (some [])

/-- Successors of every state of the beam. -/
noncomputable def beamAllChildren (protect : ℕ) (beam : List BeamSt) :
    Option (List BeamSt) :=
  beam.foldl
    (fun acc st =>
      match acc with
      | none => none
      | some l =>
        match beamStateChildren protect st with
        | none => none
        | some l2 => some (l ++ l2))
    (some [])

/-- Stable sort by score descending, dedup by sequence, keep `width` states. -/
noncomputable def dedupTake : List BeamSt → List (List ℤ) → ℕ → List BeamSt
  | [], _, _ => []
  | st :: rest, seen, w =>
    if w = 0 then []
    else if seen.contains st.2.1 then dedupTake rest seen w
    else st :: dedupTake rest (st.2.1 :: seen) (w - 1)

/-- One pruning step of the beam (`sort desc`, `seen` dedup, width cut). -/
noncomputable def beamPrune (width : ℕ) (states : List BeamSt) : List BeamSt :=
  dedupTake (sortBy (fun a b => decide (b.1 ≤ a.1)) states) [] width

/-- The `total_pairs` beam iterations. Outer `none` = crash; `some none` =
`return None` (no next states); `some (some beam)` = final beam. -/
noncomputable def beamSteps (protect width : ℕ) :
    ℕ → List BeamSt → Option (Option (List BeamSt))
  | 0, beam => some (some beam)
  | k + 1, beam =>
    match beamAllChildren protect beam with
    | none => none
    | some next =>
      if next.isEmpty then some none
      else beamSteps protect width k (beamPrune width next)

/-- `max(beam, key=score)`: first state with the maximal score. -/
noncomputable def maxByScore : List BeamSt → BeamSt → BeamSt
  | [], b => b
  | st :: rest, b => maxByScore rest (if b.1 < st.1 then st else b)

/-- `_beam_search_angle_target_drop`. Outer `none` = crash (IndexError);
`some none` = `return None`; `some (some r)` = a fallback result. -/
noncomputable def beamCore (seqIn : List ℤ) (targets : List (ℤ × ℤ))
    (protect width0 : ℕ) (foC : ℕ → ℕ → List ℕ) (foF : ℕ → List ℕ) :
    Option (Option FallbackRes) :=
  let width := max width0 1
  let pos0 := List.range seqIn.length
  match beamTargets seqIn targets with
  | none => some none
  | some tg =>
    let totalPairs := (tg.1.map (fun p => p.2)).sum
    if totalPairs = 0 ∧ tg.2.isEmpty then
      match calculate_fitness seqIn with
      | none => none
      | some r => if r.1 ≤ 0 then some none else some (some (seqIn, r.1, []))
    else
      match calculate_fitness seqIn with
      | none => none
      | some r0 =>
        if r0.1 ≤ 0 then some none
        else
          match
            (if 0 < totalPairs then
              beamSteps protect width totalPairs [(r0.1, seqIn, pos0, tg.1, [])]
            else some (some [(r0.1, seqIn, pos0, [], [])])) with
          | none => none
          | some none => some none
          | some (some finalBeam) =>
            let best := maxByScore finalBeam.tail
              (finalBeam.headD (0, [], [], [], []))
            match singlesPhase tg.2 foC foF best.2.1 best.2.2.1 best.2.2.2.2 with
            | none => none
            | some none => some none
            | some (some res) => finalizeFallback res.1 res.2.2

/-! ## `_greedy_angle_target_drop` -/

/-- Pair targets (`tgt` or `tgt + 1`) and odd-delta single angles. -/
def greedyTargets (seqIn : List ℤ) (targets : List (ℤ × ℤ)) :
    Option (List (ℤ × ℤ) × List ℤ) :=
  targets.foldl
    (fun acc p =>
      match acc with
      | none => none
      | some st =>
        let cur : ℕ := seqIn.count p.1
        if (cur : ℤ) < p.2 then none
        else
          let delta : ℕ := ((cur : ℤ) - p.2).toNat
          if delta % 2 ≠ 0 then
            some (assocSet st.1 p.1 (p.2 + 1), st.2 ++ [p.1])
          else some (assocSet st.1 p.1 p.2, st.2))
    (some ([], []))

/-- One greedy iteration's best pair-drop search (first strictly better
candidate wins). Outer `none` = crash; inner `none` = no candidate. -/
noncomputable def greedyFindBest (seq : List ℤ) (pt : List (ℤ × ℤ))
    (protect : ℕ) : Option (Option (ℝ × ℤ × ℕ)) :=
  pt.foldl
    (fun acc p =>
      match acc with
      | none => none
      | some best =>
        if ((seq.count p.1 : ℤ) - p.2) < 2 then some best
        else
          (List.range (seq.length / 2)).foldl
            (fun acc2 left =>
              match acc2 with
              | none => none
              | some b2 =>
                if left < protect then some b2
                else if seq.getD left 0 ≠ p.1 then some b2
                else
                  let right := seq.length - 1 - left
                  if right = left then some b2
                  else if seq.getD right 0 ≠ p.1 then some b2
                  else
                    match calculate_fitness (removeIdxs seq [left, right]) with
                    | none => none
                    | some r =>
                      if r.1 ≤ 0 then some b2
                      else
                        match b2 with
                        | none => some (some (r.1, p.1, left))
                        | some bb =>
                          if bb.1 < r.1 then some (some (r.1, p.1, left))
                          else some b2)
            (some best))
    (some none)

/-- Phase 1 of the greedy fallback (fuel = the 5000-iteration safety bound). -/
noncomputable def greedyLoop (pt : List (ℤ × ℤ)) (protect : ℕ) :
    ℕ → List ℤ → List ℕ → List (ℤ × List ℕ) →
      Option (Option (List ℤ × List ℕ × List (ℤ × List ℕ)))
  | 0, _, _, _ => some none
  | fuel + 1, seq, posMap, dropped =>
    if pt.all (fun p => decide ((seq.count p.1 : ℤ) ≤ p.2)) then
      some (some (seq, posMap, dropped))
    else
      match greedyFindBest seq pt protect with
      | none => none
      | some none => some none
      | some (some best) =>
        let left := best.2.2
        let right := seq.length - 1 - left
        greedyLoop pt protect fuel ((seq.eraseIdx right).eraseIdx left)
          ((posMap.eraseIdx right).eraseIdx left)
          (appendAt dropped best.2.1 [posMap.getD left 0, posMap.getD right 0])

/-- `_greedy_angle_target_drop`. Outer `none` = crash; `some none` =
`return None`; `some (some r)` = a fallback result. -/
noncomputable def greedyCore (seqIn : List ℤ) (targets : List (ℤ × ℤ))
    (protect : ℕ) (foC : ℕ → ℕ → List ℕ) (foF : ℕ → List ℕ) :
    Option (Option FallbackRes) :=
  match greedyTargets seqIn targets with
  | none => some none
  | some tg =>
    match greedyLoop tg.1 protect 5000 seqIn (List.range seqIn.length) [] with
    | none => none
    | some none => some none
    | some (some st) =>
      match singlesPhase tg.2 foC foF st.1 st.2.1 st.2.2 with
      | none => none
      | some none => some none
      | some (some res) => finalizeFallback res.1 res.2.2

/-! ## The top-level `optimize_drop_with_angle_targets` -/

/-- All random draws of one call, per stage. -/
structure DropOracle where
  attempts : ℕ → AttemptChoice
  beamCombo : ℕ → ℕ → ℕ → List ℕ
  beamFinal : ℕ → ℕ → List ℕ
  greedyCombo : ℕ → ℕ → ℕ → List ℕ
  greedyFinal : ℕ → ℕ → List ℕ

/-- The `for protect in (2, 1, 0)` fallback chain: beam first, then greedy. -/
noncomputable def fallbackChain (master : List ℤ) (fullT : List (ℤ × ℤ))
    (o : DropOracle) : List ℕ → Option (Option FallbackRes)
  | [] => some none
  | p :: rest =>
    match beamCore master fullT p 16 (o.beamCombo p) (o.beamFinal p) with
    | none => none
    | some (some r) => some (some r)
    | some none =>
      match greedyCore master fullT p (o.greedyCombo p) (o.greedyFinal p) with
      | none => none
      | some (some r) => some (some r)
      | some none => fallbackChain master fullT o rest

/-- `DropOffOptimizer.optimize_drop_with_angle_targets` with the randomness
drawn from the oracle `o`. `Except.error` = the call raises: a `ValueError`
from validation, or an `IndexError` crash out of `calculate_fitness`. -/
noncomputable def optimize_drop_with_angle_targets (master : List ℤ)
    (targets : List (ℤ × ℤ)) (o : DropOracle) :
    Except RunErr (List ℤ × ℝ × List (ℤ × List ℕ)) :=
  match validateTargets targets (counterOf master) with
  | some e => .error (.valueError e)
  | none =>
    if ((dropsNeeded0 targets (counterOf master)).map (fun p => p.2)).sum = 0 then
      match calculate_fitness master with
      | none => .error .crash
      | some r => .ok (master, r.1, [])
    else
      match runAttemptsCore
          (mkPreData master targets (dropsNeeded0 targets (counterOf master)))
          o.attempts (List.range 3000) none with
      | none => .error .crash
      | some (some best) => .ok (best.seq, best.score, best.dropped)
      | some none =>
        match fallbackChain master
            (targets.foldl (fun acc p => assocSet acc p.1 p.2)
              ((counterOf master).map (fun p => (p.1, (p.2 : ℤ)))))
            o [2, 1, 0] with
        | none => .error .crash
        | some (some r) => .ok r
        | some none =>
          match calculate_fitness master with
          | none => .error .crash
          | some r => .ok (master, r.1, [])

/-! ## Positivity of the evaluator's total -/

/-- Rule 4's score is never below `12 - 2 · 0.15 · 12 = 8.4`. -/
theorem check_external_ge (s : List ℤ) : (42 : ℝ) / 5 ≤ check_external_plies s := by
  simp only [check_external_plies]
  split_ifs <;> norm_num

theorem pyRound2_ge (x : ℝ) : x - 1 / 200 ≤ pyRound2 x := by
  have h := abs_rhe_sub_le (100 * x)
  rw [abs_le] at h
  unfold pyRound2
  have h1 := h.1
  linarith

/-- The sum of the eight rounded rule scores is strictly positive on EVERY
sequence: rule 4 alone contributes at least `8.4` before rounding. -/
theorem softTotal_pos (s : List ℤ) : 0 < softTotal s := by
  simp only [softTotal, softRules, List.map_cons, List.map_nil, List.sum_cons,
    List.sum_nil]
  have h4 : (0 : ℝ) < pyRound2 (check_external_plies s) := by
    have ha := pyRound2_ge (check_external_plies s)
    have hb := check_external_ge s
    linarith
  have h1 : 0 ≤ pyRound2 (max 0 (18 - check_symmetry_distance_weighted s)) :=
    pyRound2_nonneg _ (le_max_left 0 _)
  have h2 : 0 ≤ pyRound2 (max 0 (12 - check_balance_45 s)) :=
    pyRound2_nonneg _ (le_max_left 0 _)
  have h3 : 0 ≤ pyRound2 (max 0 (13 - check_percentage_rule s)) :=
    pyRound2_nonneg _ (le_max_left 0 _)
  have h5 : 0 ≤ pyRound2 (max 0 (14 - check_distribution_variance s)) :=
    pyRound2_nonneg _ (le_max_left 0 _)
  have h6 : 0 ≤ pyRound2 (max 0 (20.5 - check_grouping s)) :=
    pyRound2_nonneg _ (le_max_left 0 _)
  have h7 : 0 ≤ pyRound2 (max 0 (3.5 - check_buckling s)) :=
    pyRound2_nonneg _ (le_max_left 0 _)
  have h8 : 0 ≤ pyRound2 (max 0 (7 - check_lateral_bending s)) :=
    pyRound2_nonneg _ (le_max_left 0 _)
  linarith

/-- Nonempty sequences always evaluate to some result. -/
theorem calculate_fitness_exists (s : List ℤ) (hne : s ≠ []) :
    ∃ r, calculate_fitness s = some r := by
  unfold calculate_fitness
  rw [if_neg hne]
  split_ifs <;> exact ⟨_, rfl⟩

/-! ## Validation behaviour of `optimize_drop_with_angle_targets` -/

set_option maxRecDepth 8000 in
/-- The call raises a `ValueError` iff the validation loop finds one; every
other failure is a crash, and successes are `.ok`. -/
theorem opt_valueError_iff (master : List ℤ) (targets : List (ℤ × ℤ))
    (o : DropOracle) (e : DropError) :
    optimize_drop_with_angle_targets master targets o = .error (.valueError e) ↔
      validateTargets targets (counterOf master) = some e := by
  unfold optimize_drop_with_angle_targets
  constructor
  · intro h
    split at h
    · rename_i e' heq
      rw [heq]
      simp only [Except.error.injEq, RunErr.valueError.injEq] at h
      rw [h]
    · exfalso
      iterate 5 all_goals try split at h
      all_goals
        first
          | exact RunErr.noConfusion (Except.error.inj h)
          | exact Except.noConfusion h
  · intro h
    rw [h]

/-- With nonnegative targets the validation error is an exceed error, raised
iff some target exceeds the parent's count of that angle. -/
theorem validateTargets_spec (targets : List (ℤ × ℤ)) (counts : List (ℤ × ℕ))
    (hnn : ∀ p ∈ targets, 0 ≤ p.2) :
    ((∃ e, validateTargets targets counts = some e) ↔
      ∃ p ∈ targets, (((counts.lookup p.1).getD 0 : ℕ) : ℤ) < p.2) ∧
    ∀ e, validateTargets targets counts = some e →
      ∃ a t c, e = .exceed a t c := by
  induction targets with
  | nil => simp [validateTargets]
  | cons p rest ih =>
    have hnnp := hnn p (List.mem_cons_self _ _)
    obtain ⟨ih1, ih2⟩ := ih (fun q hq => hnn q (List.mem_cons_of_mem _ hq))
    by_cases hlt : (((counts.lookup p.1).getD 0 : ℕ) : ℤ) < p.2
    · have hres : validateTargets (p :: rest) counts =
          some (.exceed p.1 p.2 ((counts.lookup p.1).getD 0)) := by
        simp [validateTargets, hlt]
      refine ⟨⟨fun _ => ⟨p, List.mem_cons_self _ _, hlt⟩, fun _ => ⟨_, hres⟩⟩, ?_⟩
      intro e he
      rw [hres] at he
      exact ⟨_, _, _, (Option.some_injective _ he).symm⟩
    · have hneg : ¬ p.2 < 0 := not_lt.mpr hnnp
      have hstep : validateTargets (p :: rest) counts =
          validateTargets rest counts := by
        simp [validateTargets, hlt, hneg]
      refine ⟨?_, fun e he => ih2 e (hstep ▸ he)⟩
      rw [hstep, ih1]
      constructor
      · rintro ⟨q, hq, hql⟩
        exact ⟨q, List.mem_cons_of_mem _ hq, hql⟩
      · rintro ⟨q, hq, hql⟩
        rcases List.mem_cons.mp hq with rfl | hq'
        · exact absurd hql hlt
        · exact ⟨q, hq', hql⟩

/-- C4 (amended): with nonnegative targets the call raises a `ValueError`
iff some angle's target exceeds the parent's count; any raised error is the
exceed error, and the raise is independent of the search randomness (no
search is attempted). -/
theorem angle_target_exceed_error (master : List ℤ) (targets : List (ℤ × ℤ))
    (o o' : DropOracle) (hnn : ∀ p ∈ targets, 0 ≤ p.2) :
    ((∃ e, optimize_drop_with_angle_targets master targets o =
        .error (.valueError e)) ↔
      ∃ p ∈ targets, ((((counterOf master).lookup p.1).getD 0 : ℕ) : ℤ) < p.2) ∧
    ∀ e, optimize_drop_with_angle_targets master targets o =
        .error (.valueError e) →
      (∃ a t c, e = .exceed a t c) ∧
        optimize_drop_with_angle_targets master targets o' =
          .error (.valueError e) := by
  obtain ⟨h1, h2⟩ := validateTargets_spec targets (counterOf master) hnn
  constructor
  · exact (exists_congr (fun e => opt_valueError_iff master targets o e)).trans h1
  · intro e he
    have hv := (opt_valueError_iff master targets o e).mp he
    exact ⟨h2 e hv, (opt_valueError_iff master targets o' e).mpr hv⟩

/-- A fixed trivial oracle (every proposal invalid, so every draw falls back
to its deterministic default). -/
def o0 : DropOracle where
  attempts := fun _ =>
    ⟨true, fun _ => [], fun _ => [], fun _ => [], 0, fun _ => 0, fun _ => []⟩
  beamCombo := fun _ _ _ => []
  beamFinal := fun _ _ => []
  greedyCombo := fun _ _ _ => []
  greedyFinal := fun _ _ => []

/-- C4 counterexample: on parent `[45, -45, -45, 45]` with targets
`{0: -1, 45: 99}` the 45° target exceeds the parent's count, yet the call
raises the NEGATIVE-target message (the per-entry loop checks the 0° entry
first), not the exceed message the claim requires. -/
theorem angle_target_error_message_mismatch :
    optimize_drop_with_angle_targets [45, -45, -45, 45] [(0, -1), (45, 99)] o0 =
      .error (.valueError (.negative 0 (-1))) ∧
    ((([45, -45, -45, 45] : List ℤ).count 45 : ℤ) < 99) ∧
    errMessage (.negative 0 (-1)) = "Angle 0°: hedef sayı negatif olamaz" ∧
    ∀ a t c, DropError.negative 0 (-1) ≠ .exceed a t c :=
  ⟨rfl, by decide, rfl, fun _ _ _ h => DropError.noConfusion h⟩

/-- C4 witness for the amended theorem, at targets `{45: 3}`. -/
theorem angle_target_exceed_error_witness :
    (∀ p ∈ ([(45, 3)] : List (ℤ × ℤ)), 0 ≤ p.2) ∧
    (((∃ e, optimize_drop_with_angle_targets [45, -45, -45, 45] [(45, 3)] o0 =
        .error (.valueError e)) ↔
      ∃ p ∈ ([(45, 3)] : List (ℤ × ℤ)),
        ((((counterOf [45, -45, -45, 45]).lookup p.1).getD 0 : ℕ) : ℤ) < p.2) ∧
    ∀ e, optimize_drop_with_angle_targets [45, -45, -45, 45] [(45, 3)] o0 =
        .error (.valueError e) →
      (∃ a t c, e = .exceed a t c) ∧
        optimize_drop_with_angle_targets [45, -45, -45, 45] [(45, 3)] o0 =
          .error (.valueError e)) :=
  ⟨by decide,
    angle_target_exceed_error [45, -45, -45, 45] [(45, 3)] o0 o0 (by decide)⟩

/-! ## C7 — drop-off with the parent's own counts as targets -/

/-- The parent's own per-angle counts, as a target map in `Counter` order. -/
def targetsOfCounts (s : List ℤ) : List (ℤ × ℤ) :=
  (counterOf s).map (fun p => (p.1, (p.2 : ℤ)))

theorem lookup_map_count (s : List ℤ) (keys : List ℤ) (a : ℤ) (h : a ∈ keys) :
    (keys.map (fun k => (k, s.count k))).lookup a = some (s.count a) := by
  induction keys with
  | nil => cases h
  | cons k ks ih =>
    by_cases hk : a = k
    · subst hk
      simp [List.lookup]
    · have ha : a ∈ ks := by
        rcases List.mem_cons.mp h with rfl | h'
        · exact absurd rfl hk
        · exact h'
      have hbeq : (a == k) = false := beq_eq_false_iff_ne.mpr hk
      simp [List.lookup, hbeq, ih ha]

/-- With the parent's own counts as targets, validation passes and no drops
are needed. -/
theorem validate_dropsNeeded_self (s : List ℤ) :
    validateTargets (targetsOfCounts s) (counterOf s) = none ∧
    dropsNeeded0 (targetsOfCounts s) (counterOf s) = [] := by
  have key : ∀ p ∈ counterOf s, (counterOf s).lookup p.1 = some p.2 := by
    intro p hp
    simp only [counterOf, List.mem_map] at hp
    obtain ⟨a, ha, rfl⟩ := hp
    exact lookup_map_count s (firstOccurrences s) a ha
  suffices H : ∀ l : List (ℤ × ℕ),
      (∀ p ∈ l, (counterOf s).lookup p.1 = some p.2) →
      validateTargets (l.map (fun p => (p.1, (p.2 : ℤ)))) (counterOf s) = none ∧
      dropsNeeded0 (l.map (fun p => (p.1, (p.2 : ℤ)))) (counterOf s) = [] by
    exact H (counterOf s) key
  intro l
  induction l with
  | nil => intro _; exact ⟨rfl, rfl⟩
  | cons p rest ih =>
    intro hl
    have hp := hl p (List.mem_cons_self _ _)
    obtain ⟨hv, hd⟩ := ih (fun q hq => hl q (List.mem_cons_of_mem _ hq))
    constructor
    · simp only [List.map_cons, validateTargets, hp, Option.getD_some]
      rw [if_neg (by omega), if_neg (by omega)]
      exact hv
    · simp only [List.map_cons, dropsNeeded0, List.filterMap_cons, hp,
        Option.getD_some] at hd ⊢
      rw [if_neg (by omega)]
      exact hd

set_option maxRecDepth 8000 in
/-- C7 (amended): for every NON-EMPTY parent, drop-off with the parent's own
per-angle counts as targets returns the parent unchanged, the parent's own
fitness total, and an empty removal record — for every draw of randomness. -/
theorem round_trip_identity (parent : List ℤ) (h : parent ≠ []) (o : DropOracle) :
    optimize_drop_with_angle_targets parent (targetsOfCounts parent) o =
      .ok (parent, fitTotal parent, []) := by
  obtain ⟨hv, hd⟩ := validate_dropsNeeded_self parent
  obtain ⟨r, hr⟩ := calculate_fitness_exists parent h
  have htot : fitTotal parent = r.1 := by
    unfold fitTotal
    rw [hr]
    rfl
  unfold optimize_drop_with_angle_targets
  rw [hv, hd, hr, htot]
  rfl

/-- C7 counterexample: on the EMPTY parent the claim fails — the target map
equal to the parent's counts is empty, no drops are needed, and the early
return calls `calculate_fitness([])`, which raises IndexError instead of
returning the parent. -/
theorem round_trip_empty_crash :
    optimize_drop_with_angle_targets [] (targetsOfCounts []) o0 =
      .error .crash ∧ targetsOfCounts [] = [] :=
  ⟨rfl, rfl⟩

/-- C7 witness for the amended theorem, at parent `[45, 45]`. -/
theorem round_trip_identity_witness :
    ([45, 45] : List ℤ) ≠ [] ∧
    optimize_drop_with_angle_targets [45, 45] (targetsOfCounts [45, 45]) o0 =
      .ok ([45, 45], fitTotal [45, 45], []) :=
  ⟨by decide, round_trip_identity [45, 45] (by decide) o0⟩

/-! ## C2 — the drop-off output contract -/

theorem bool_of_not_bnot {b : Bool} (h : ¬ ((!b) = true)) : b = true := by
  cases b
  · exact absurd rfl h
  · rfl

theorem runAttemptsCore_all_reject (d : PreData) (o : ℕ → AttemptChoice)
    (l : List ℕ) (st : Option Accepted)
    (h : ∀ c, attemptCore d c = some none) :
    runAttemptsCore d o l st = some st := by
  induction l with
  | nil => rfl
  | cons i rest ih => simp [runAttemptsCore, h (o i), ih]

theorem map_getD_range (s : List ℤ) :
    (List.range s.length).map (fun i => s.getD i 0) = s := by
  apply List.ext_getElem
  · simp
  · intro i h1 h2
    simp only [List.getElem_map, List.getElem_range]
    exact List.getD_eq_getElem s 0 h2

/-- The drop construction only removes plies: its result is a sublist. -/
theorem removeIdxs_sublist (s : List ℤ) (idxs : List ℕ) :
    (removeIdxs s idxs).Sublist s := by
  have h := (List.filter_sublist (l := List.range s.length)
    (p := fun i => !(idxs.contains i))).map (fun i => s.getD i 0)
  rw [map_getD_range] at h
  exact h

/-- Positive fitness is only reported for hard-constraint-passing sequences. -/
theorem hardFailB_of_fitness_pos (s : List ℤ) (r : ℝ × FitBreakdown)
    (hr : calculate_fitness s = some r) (hpos : 0 < r.1) :
    hardFailB s = false := by
  unfold calculate_fitness at hr
  split_ifs at hr with he h1 h2 h3
  · rw [← Option.some_inj.mp hr] at hpos
    exact absurd hpos (by norm_num)
  · rw [← Option.some_inj.mp hr] at hpos
    exact absurd hpos (by norm_num)
  · rw [← Option.some_inj.mp hr] at hpos
    exact absurd hpos (by norm_num)
  · have e1 : endpoint0B s = false := by
      cases hx : endpoint0B s
      · rfl
      · exact absurd hx h1
    have e2 : adj09B s = false := by
      cases hx : adj09B s
      · rfl
      · exact absurd hx h2
    have e3 : outerNot45B s = false := by
      cases hx : outerNot45B s
      · rfl
      · exact absurd hx h3
    unfold hardFailB
    rw [e1, e2, e3]
    rfl

set_option maxRecDepth 8000 in
/-- C2 (amended): every candidate the randomized search ACCEPTS meets the
contract — exact per-angle target counts, strictly positive fitness (all hard
constraints hold), no runs of length 4 or 5, at most 4 runs of length 3, and,
when no asymmetric single-ply drop is involved, the child is a subsequence of
the parent (plies only removed, order kept). The function as a whole does not
guarantee this: it can return the parent unchanged or crash (see the
counterexample). -/
theorem accepted_candidate_contract (d : PreData) (c : AttemptChoice)
    (acc : Accepted) (h : attemptCore d c = some (some acc)) :
    (∀ p ∈ d.targets, ((acc.seq.count p.1 : ℤ) = p.2)) ∧
    0 < acc.score ∧ acc.score = fitTotal acc.seq ∧
    hardFailB acc.seq = false ∧
    findGroupsOfSize acc.seq 4 = 0 ∧ findGroupsOfSize acc.seq 5 = 0 ∧
    findGroupsOfSize acc.seq 3 ≤ 4 ∧
    (d.singleAngles = [] → acc.seq.Sublist d.master) := by
  simp only [attemptCore] at h
  split at h
  · exact absurd h (by simp)
  · rename_i dr hdr
    by_cases hse : d.singleAngles.isEmpty = true
    · simp only [hse, if_true] at h
      split at h
      · exact absurd h (by simp)
      · rename_i r heq
        split_ifs at h with h1 h2 h3 h4
        · exact absurd h (by simp)
        · exact absurd h (by simp)
        · exact absurd h (by simp)
        · exact absurd h (by simp)
        · have hacc := Option.some_inj.mp (Option.some_inj.mp h)
          subst hacc
          dsimp only
          refine ⟨?_, not_le.mp h1, ?_,
            hardFailB_of_fitness_pos _ r heq (not_le.mp h1),
            by omega, by omega, by omega, ?_⟩
          · intro p hp
            have hA := List.all_eq_true.mp (bool_of_not_bnot h2) p hp
            exact eq_of_beq (by simpa using hA)
          · unfold fitTotal
            rw [heq]
            rfl
          · intro _
            exact removeIdxs_sublist d.master dr.1
    · have hse' : d.singleAngles.isEmpty = false := by
        cases hx : d.singleAngles.isEmpty
        · rfl
        · exact absurd hx hse
      simp only [hse', Bool.false_eq_true, if_false] at h
      split at h
      · exact absurd h (by simp)
      · rename_i r heq
        split_ifs at h with h1 h2 h3 h4
        · exact absurd h (by simp)
        · exact absurd h (by simp)
        · exact absurd h (by simp)
        · exact absurd h (by simp)
        · have hacc := Option.some_inj.mp (Option.some_inj.mp h)
          subst hacc
          dsimp only
          refine ⟨?_, not_le.mp h1, ?_,
            hardFailB_of_fitness_pos _ r heq (not_le.mp h1),
            by omega, by omega, by omega, ?_⟩
          · intro p hp
            have hA := List.all_eq_true.mp (bool_of_not_bnot h2) p hp
            exact eq_of_beq (by simpa using hA)
          · unfold fitTotal
            rw [heq]
            rfl
          · intro hs
            exact absurd (by rw [hs]; rfl) hse

/-! ## C2 counterexample: parent [45, 45], target {45: 0} -/

theorem c2_beam2 (foC : ℕ → ℕ → List ℕ) (foF : ℕ → List ℕ) :
    beamCore [45, 45] [(45, 0)] 2 16 foC foF = some none := by
  obtain ⟨r, hcf⟩ := calculate_fitness_exists [45, 45] (by decide)
  have hy : beamCore [45, 45] [(45, 0)] 2 16 foC foF =
      (match calculate_fitness [45, 45] with
       | none => none
       | some r0 => if r0.1 ≤ 0 then some none else some none) := by
    with_unfolding_all rfl
  rw [hy, hcf]
  exact ite_self _

theorem c2_beam1 (foC : ℕ → ℕ → List ℕ) (foF : ℕ → List ℕ) :
    beamCore [45, 45] [(45, 0)] 1 16 foC foF = some none := by
  obtain ⟨r, hcf⟩ := calculate_fitness_exists [45, 45] (by decide)
  have hy : beamCore [45, 45] [(45, 0)] 1 16 foC foF =
      (match calculate_fitness [45, 45] with
       | none => none
       | some r0 => if r0.1 ≤ 0 then some none else some none) := by
    with_unfolding_all rfl
  rw [hy, hcf]
  exact ite_self _

theorem c2_beam0 (foC : ℕ → ℕ → List ℕ) (foF : ℕ → List ℕ) :
    beamCore [45, 45] [(45, 0)] 0 16 foC foF = none := by
  have hcf := calculate_fitness_of_ok [45, 45] (by decide) (by decide)
  have hy : beamCore [45, 45] [(45, 0)] 0 16 foC foF =
      (match calculate_fitness [45, 45] with
       | none => none
       | some r0 => if r0.1 ≤ 0 then some none else none) := by
    with_unfolding_all rfl
  rw [hy, hcf]
  show (if softTotal [45, 45] ≤ 0 then some none else none) = none
  rw [if_neg (not_le.mpr (softTotal_pos [45, 45]))]

theorem c2_chain : fallbackChain [45, 45] [(45, 0)] o0 [2, 1, 0] = none := by
  simp only [fallbackChain, c2_beam2 (o0.beamCombo 2) (o0.beamFinal 2),
    c2_beam1 (o0.beamCombo 1) (o0.beamFinal 1),
    c2_beam0 (o0.beamCombo 0) (o0.beamFinal 0),
    show greedyCore [45, 45] [(45, 0)] 2 (o0.greedyCombo 2) (o0.greedyFinal 2) =
      some none from by with_unfolding_all rfl,
    show greedyCore [45, 45] [(45, 0)] 1 (o0.greedyCombo 1) (o0.greedyFinal 1) =
      some none from by with_unfolding_all rfl]

set_option maxRecDepth 8000 in
/-- C2 counterexample: with parent `[45, 45]` and target `{45: 0}` (a feasible
target map: 0 ≤ 2), every random attempt is invalid, every fallback stage at
protect levels 2 and 1 finds no candidate, and the beam search at protect
level 0 empties the sequence, so `calculate_fitness([])` raises IndexError:
the call crashes instead of returning the contracted child. -/
theorem angle_target_drop_crash :
    optimize_drop_with_angle_targets [45, 45] [(45, 0)] o0 = .error .crash := by
  have hrun : runAttemptsCore (mkPreData [45, 45] [(45, 0)] [(45, 2)])
      o0.attempts (List.range 3000) none = some none :=
    runAttemptsCore_all_reject _ _ _ _ (fun _ => rfl)
  simp only [optimize_drop_with_angle_targets,
    show validateTargets [(45, 0)] (counterOf [45, 45]) = none from rfl,
    show dropsNeeded0 [(45, 0)] (counterOf [45, 45]) = [(45, 2)] from rfl,
    hrun]
  rw [if_neg
    (by decide :
      ¬((List.map (fun p => p.2) ([((45 : ℤ), (2 : ℕ))] : List (ℤ × ℕ))).sum
        = 0))]
  rw [show (List.foldl (fun acc p => assocSet acc p.1 p.2)
      (List.map (fun p => (p.1, (p.2 : ℤ))) (counterOf [45, 45])) [(45, 0)]) =
      [(45, 0)] from rfl]
  rw [c2_chain]

/-! ## C2 witness data: an accepted attempt -/

def w2pre : PreData :=
  mkPreData [45, -45, 45, 0, 0, 45, -45, 45] [(45, 2)] [(45, 2)]

def w2choice : AttemptChoice :=
  ⟨true, fun _ => [], fun _ => [], fun _ => [2], 0, fun _ => 0, fun _ => []⟩

noncomputable def w2acc : Accepted :=
  ⟨[45, -45, 0, 0, -45, 45], softTotal [45, -45, 0, 0, -45, 45], 0,
    [(45, [2, 5])]⟩

theorem w2_accepted : attemptCore w2pre w2choice = some (some w2acc) := by
  have hcf := calculate_fitness_of_ok [45, -45, 0, 0, -45, 45] (by decide)
    (by decide)
  simp only [attemptCore,
    show attemptAssemble w2pre w2choice = some ([2, 5], [(45, [2, 5])]) from rfl,
    show w2pre.singleAngles = [] from rfl, List.isEmpty_nil, if_true,
    show removeIdxs w2pre.master [2, 5] = [45, -45, 0, 0, -45, 45] from rfl,
    hcf]
  rw [if_neg (not_le.mpr (softTotal_pos _)), if_neg (by decide),
    if_neg (by decide), if_neg (by decide)]
  rfl

/-- C2 witness: a concretely accepted candidate, to which the amended
contract theorem applies. -/
theorem accepted_candidate_contract_witness :
    (∀ p ∈ w2pre.targets, ((w2acc.seq.count p.1 : ℤ) = p.2)) ∧
    0 < w2acc.score ∧ w2acc.score = fitTotal w2acc.seq ∧
    hardFailB w2acc.seq = false ∧
    findGroupsOfSize w2acc.seq 4 = 0 ∧ findGroupsOfSize w2acc.seq 5 = 0 ∧
    findGroupsOfSize w2acc.seq 3 ≤ 4 ∧
    (w2pre.singleAngles = [] → w2acc.seq.Sublist w2pre.master) :=
  accepted_candidate_contract w2pre w2choice w2acc w2_accepted

/-! ## `MultiZoneOptimizer`: connectivity gate (C5) -/

/-- Per-zone ply totals (`zone_totals = [sum(z.values()) for z in config]`). -/
def zone_totals (zonesConfig : List (List (ℤ × ℤ))) : List ℤ :=
  zonesConfig.map (fun z => (z.map (fun p => p.2)).sum)

/-- Python `max` on a nonempty list. -/
def pyMax (l : List ℤ) : ℤ := l.foldl max (l.headD 0)

/-- `root_index = zone_totals.index(max(zone_totals))` (first maximum). -/
def root_index (totals : List ℤ) : ℕ := totals.indexOf (pyMax totals)

/-- One step of the neighbour relation: `b` appears in `a`'s adjacency list. -/
def stepRel (adj : List (List ℕ)) (a b : ℕ) : Prop := b ∈ adj.getD a []

/-- All adjacency entries, for the BFS fuel bound. -/
def adjFlat (adj : List (List ℕ)) : List ℕ := adj.flatten

/-- The inner `for neighbor in self.zone_neighbors[current]` loop of the BFS:
mark unvisited neighbours and enqueue them. -/
def bfsFold (visited queue : List ℕ) (l : List ℕ) : List ℕ × List ℕ :=
  l.foldl
    (fun st2 neighbor =>
      if st2.1.contains neighbor then st2
      else (st2.1 ++ [neighbor], st2.2 ++ [neighbor]))
    (visited, queue)

/-- The `while queue:` loop of `_check_connectivity`, with enough fuel. -/
def bfsLoop (adj : List (List ℕ)) : ℕ → List ℕ → List ℕ → List ℕ
  | 0, visited, _ => visited
  | fuel + 1, visited, queue =>
    match queue with
    | [] => visited
    | current :: rest =>
      let st := bfsFold visited rest (adj.getD current [])
      bfsLoop adj fuel st.1 st.2

/-- `MultiZoneOptimizer._check_connectivity`. -/
def check_connectivity (zonesConfig : List (List (ℤ × ℤ)))
    (adj : List (List ℕ)) : Bool × List ℕ :=
  if adj.isEmpty then (true, [])
  else
    let root := root_index (zone_totals zonesConfig)
    let visited := bfsLoop adj (2 * (adjFlat adj).length + 2) [root] [root]
    let disconnected := (List.range zonesConfig.length).filter
      (fun i => !(visited.contains i))
    (decide (disconnected.length = 0), disconnected)

/-- The `success = False` record returned on a disconnected input (only the
fields the claim speaks about). -/
structure MZError where
  success : Bool
  disconnected_zones : List ℕ
  zones : List (List ℤ)
  root_index : ℕ
deriving DecidableEq

/-- `MultiZoneOptimizer.optimize_all`, up to the connectivity gate: when the
neighbour graph is present and disconnected the error record is returned; in
every other case the retry loop `run` (root optimization + drop-offs),
abstracted as an arbitrary value, is entered. -/
def optimize_all {α : Type} (zonesConfig : List (List (ℤ × ℤ)))
    (adj : List (List ℕ)) (run : α) : MZError ⊕ α :=
  if adj.isEmpty then Sum.inr run
  else
    match check_connectivity zonesConfig adj with
    | (true, _) => Sum.inr run
    | (false, disconnected) =>
      Sum.inl ⟨false, disconnected, [],
        root_index (zone_totals zonesConfig)⟩

/-- The mark-and-enqueue fold appends one common fresh block to both lists. -/
theorem bfsFold_spec (l visited queue : List ℕ) :
    ∃ d : List ℕ,
      (bfsFold visited queue l).1 = visited ++ d ∧
      (bfsFold visited queue l).2 = queue ++ d ∧
      d.Nodup ∧ (∀ y ∈ d, y ∉ visited) ∧ (∀ y ∈ d, y ∈ l) ∧
      (∀ y ∈ l, y ∈ visited ++ d) := by
  induction l generalizing visited queue with
  | nil =>
    exact ⟨[], by simp [bfsFold], by simp [bfsFold], List.nodup_nil,
      by simp, by simp, by simp⟩
  | cons x xs ih =>
    by_cases hx : x ∈ visited
    · have hstep : bfsFold visited queue (x :: xs) = bfsFold visited queue xs := by
        simp [bfsFold, List.foldl_cons, hx]
      obtain ⟨d, h1, h2, h3, h4, h5, h6⟩ := ih visited queue
      refine ⟨d, hstep ▸ h1, hstep ▸ h2, h3, h4,
        fun y hy => List.mem_cons_of_mem _ (h5 y hy), ?_⟩
      intro y hy
      rcases List.mem_cons.mp hy with rfl | hy'
      · exact List.mem_append_left _ hx
      · exact h6 y hy'
    · have hstep : bfsFold visited queue (x :: xs) =
          bfsFold (visited ++ [x]) (queue ++ [x]) xs := by
        simp [bfsFold, List.foldl_cons, hx]
      obtain ⟨d, h1, h2, h3, h4, h5, h6⟩ := ih (visited ++ [x]) (queue ++ [x])
      refine ⟨x :: d, ?_, ?_, ?_, ?_, ?_, ?_⟩
      · rw [hstep, h1, List.append_assoc]
        rfl
      · rw [hstep, h2, List.append_assoc]
        rfl
      · refine List.nodup_cons.mpr ⟨fun hxd => ?_, h3⟩
        exact h4 x hxd (List.mem_append_right _ (List.mem_singleton.mpr rfl))
      · intro y hy
        rcases List.mem_cons.mp hy with rfl | hy'
        · exact hx
        · exact fun hyv => h4 y hy' (List.mem_append_left _ hyv)
      · intro y hy
        rcases List.mem_cons.mp hy with rfl | hy'
        · exact List.mem_cons_self _ _
        · exact List.mem_cons_of_mem _ (h5 y hy')
      · intro y hy
        rcases List.mem_cons.mp hy with rfl | hy'
        · exact List.mem_append_right _ (List.mem_cons_self _ _)
        · rcases List.mem_append.mp (h6 y hy') with hv | hd
          · rcases List.mem_append.mp hv with hv' | hx'
            · exact List.mem_append_left _ hv'
            · rw [List.mem_singleton.mp hx']
              exact List.mem_append_right _ (List.mem_cons_self _ _)
          · exact List.mem_append_right _ (List.mem_cons_of_mem _ hd)

theorem adjFlat_of_getD (adj : List (List ℕ)) (i : ℕ) :
    ∀ y ∈ adj.getD i [], y ∈ adjFlat adj := by
  intro y hy
  rcases h : adj.get? i with _ | l
  · rw [List.getD_eq_getD_get?, h] at hy
    cases hy
  · rw [List.getD_eq_getD_get?, h] at hy
    exact List.mem_flatten.mpr ⟨l, List.get?_mem h, hy⟩

theorem nodup_length_le (l l' : List ℕ) (hn : l.Nodup)
    (hs : ∀ x ∈ l, x ∈ l') : l.length ≤ l'.length :=
  calc l.length = l.toFinset.card := (List.toFinset_card_of_nodup hn).symm
    _ ≤ l'.toFinset.card := Finset.card_le_card
        (fun x hx => List.mem_toFinset.mpr (hs x (List.mem_toFinset.mp hx)))
    _ ≤ l'.length := l'.toFinset_card_le

/-- A visited set containing the root and closed under the neighbour relation
is exactly the reachable set. -/
theorem closed_visited_iff (adj : List (List ℕ)) (root : ℕ) (visited : List ℕ)
    (hroot : root ∈ visited)
    (hreach : ∀ x ∈ visited, Relation.ReflTransGen (stepRel adj) root x)
    (hclosed : ∀ x ∈ visited, ∀ y ∈ adj.getD x [], y ∈ visited) :
    ∀ x, x ∈ visited ↔ Relation.ReflTransGen (stepRel adj) root x := by
  intro x
  constructor
  · exact hreach x
  · intro hr
    induction hr with
    | refl => exact hroot
    | tail _ h2 ih => exact hclosed _ ih _ h2

/-- BFS correctness: with the stated invariants and enough fuel, the loop's
visited set is exactly the set of zones reachable from the root. -/
theorem bfsLoop_mem_iff (adj : List (List ℕ)) (root : ℕ) :
    ∀ (fuel : ℕ) (visited queue : List ℕ),
      visited.Nodup →
      root ∈ visited →
      (∀ x ∈ queue, x ∈ visited) →
      (∀ x ∈ visited, x = root ∨ x ∈ adjFlat adj) →
      (∀ x ∈ visited, Relation.ReflTransGen (stepRel adj) root x) →
      (∀ x ∈ visited, x ∉ queue → ∀ y ∈ adj.getD x [], y ∈ visited) →
      2 * ((adjFlat adj).length + 1) + queue.length ≤ fuel + 2 * visited.length →
      ∀ x, x ∈ bfsLoop adj fuel visited queue ↔
        Relation.ReflTransGen (stepRel adj) root x := by
  intro fuel
  induction fuel with
  | zero =>
    intro visited queue hnd hroot hq hmem hreach hclosed hfuel
    have hvle : visited.length ≤ (adjFlat adj).length + 1 := by
      have h := nodup_length_le visited (root :: adjFlat adj) hnd (fun z hz => by
        rcases hmem z hz with rfl | h
        · exact List.mem_cons_self _ _
        · exact List.mem_cons_of_mem _ h)
      simpa using h
    have hqe : queue = [] := List.eq_nil_of_length_eq_zero (by omega)
    subst hqe
    exact closed_visited_iff adj root visited hroot hreach
      (fun z hz => hclosed z hz (List.not_mem_nil z))
  | succ fuel ih =>
    intro visited queue hnd hroot hq hmem hreach hclosed hfuel
    match queue, hq, hclosed, hfuel with
    | [], _, hclosed, _ =>
      exact closed_visited_iff adj root visited hroot hreach
        (fun z hz => hclosed z hz (List.not_mem_nil z))
    | current :: rest, hq, hclosed, hfuel =>
      have hcur : current ∈ visited := hq current (List.mem_cons_self _ _)
      obtain ⟨d, h1, h2, h3, h4, h5, h6⟩ :=
        bfsFold_spec (adj.getD current []) visited rest
      have hred : bfsLoop adj (fuel + 1) visited (current :: rest) =
          bfsLoop adj fuel (bfsFold visited rest (adj.getD current [])).1
            (bfsFold visited rest (adj.getD current [])).2 := rfl
      rw [hred, h1, h2]
      apply ih (visited ++ d) (rest ++ d)
      · exact List.nodup_append.mpr ⟨hnd, h3, fun a ha had => h4 a had ha⟩
      · exact List.mem_append_left _ hroot
      · intro z hz
        rcases List.mem_append.mp hz with hz' | hz'
        · exact List.mem_append_left _ (hq z (List.mem_cons_of_mem _ hz'))
        · exact List.mem_append_right _ hz'
      · intro z hz
        rcases List.mem_append.mp hz with hz' | hz'
        · exact hmem z hz'
        · exact Or.inr (adjFlat_of_getD adj current z (h5 z hz'))
      · intro z hz
        rcases List.mem_append.mp hz with hz' | hz'
        · exact hreach z hz'
        · exact Relation.ReflTransGen.tail (hreach current hcur) (h5 z hz')
      · intro z hz hznq y hy
        rcases List.mem_append.mp hz with hz' | hz'
        · by_cases hzc : z = current
          · subst hzc
            exact h6 y hy
          · have hznq' : z ∉ current :: rest := by
              intro hmem'
              rcases List.mem_cons.mp hmem' with rfl | hmem''
              · exact hzc rfl
              · exact hznq (List.mem_append_left _ hmem'')
            exact List.mem_append_left _ (hclosed z hz' hznq' y hy)
        · exact absurd (List.mem_append_right _ hz') hznq
      · simp only [List.length_append, List.length_cons] at hfuel ⊢
        omega

/-- The connectivity check lists exactly the zones unreachable from the root
(with geometry present). -/
theorem check_connectivity_spec (zonesConfig : List (List (ℤ × ℤ)))
    (adj : List (List ℕ)) (hne : adj ≠ []) :
    ∀ i, i ∈ (check_connectivity zonesConfig adj).2 ↔
      (i < zonesConfig.length ∧
        ¬ Relation.ReflTransGen (stepRel adj)
          (root_index (zone_totals zonesConfig)) i) := by
  intro i
  have hie : adj.isEmpty = false := by
    cases adj
    · exact absurd rfl hne
    · rfl
  have hiff := bfsLoop_mem_iff adj (root_index (zone_totals zonesConfig))
    (2 * (adjFlat adj).length + 2)
    [root_index (zone_totals zonesConfig)]
    [root_index (zone_totals zonesConfig)]
    (List.nodup_singleton _) (List.mem_singleton.mpr rfl)
    (fun x hx => hx)
    (fun x hx => Or.inl (List.mem_singleton.mp hx))
    (fun x hx => by
      rw [List.mem_singleton.mp hx])
    (fun x hx hnq => absurd hx hnq)
    (by simp only [List.length_singleton]; omega)
  simp only [check_connectivity, hie, Bool.false_eq_true, if_false]
  rw [List.mem_filter, List.mem_range]
  constructor
  · rintro ⟨hlt, hcon⟩
    refine ⟨hlt, fun hr => ?_⟩
    have hv := (hiff i).mpr hr
    simp [hv] at hcon
  · rintro ⟨hlt, hnr⟩
    have hv : i ∉ bfsLoop adj (2 * (adjFlat adj).length + 2)
        [root_index (zone_totals zonesConfig)]
        [root_index (zone_totals zonesConfig)] :=
      fun hv => hnr ((hiff i).mp hv)
    exact ⟨hlt, by simp [hv]⟩

/-- C5: with geometry present, if some zone is unreachable from the root zone
in the neighbour graph, `optimize_all` aborts with `success = False`, a
`disconnected_zones` list holding exactly the unreachable zone indices, an
EMPTY `zones` list — and no optimization is run: the result does not depend
on the optimization stage at all. -/
theorem disconnected_zones_abort {α : Type} (zonesConfig : List (List (ℤ × ℤ)))
    (adj : List (List ℕ)) (run run' : α) (hne : adj ≠ [])
    (hdisc : ∃ i, i < zonesConfig.length ∧
      ¬ Relation.ReflTransGen (stepRel adj)
        (root_index (zone_totals zonesConfig)) i) :
    ∃ disc : List ℕ,
      optimize_all zonesConfig adj run =
        Sum.inl ⟨false, disc, [], root_index (zone_totals zonesConfig)⟩ ∧
      (∀ i, i ∈ disc ↔ i < zonesConfig.length ∧
        ¬ Relation.ReflTransGen (stepRel adj)
          (root_index (zone_totals zonesConfig)) i) ∧
      optimize_all zonesConfig adj run' = optimize_all zonesConfig adj run := by
  have hspec := check_connectivity_spec zonesConfig adj hne
  obtain ⟨i0, hi0, hr0⟩ := hdisc
  have hi0m : i0 ∈ (check_connectivity zonesConfig adj).2 :=
    (hspec i0).mpr ⟨hi0, hr0⟩
  have hlen : ¬ ((check_connectivity zonesConfig adj).2.length = 0) := by
    intro h0
    rw [List.eq_nil_of_length_eq_zero h0] at hi0m
    exact List.not_mem_nil i0 hi0m
  have hie : adj.isEmpty = false := by
    cases adj
    · exact absurd rfl hne
    · rfl
  have h1 : (check_connectivity zonesConfig adj).1 = false := by
    simp only [check_connectivity, hie, Bool.false_eq_true, if_false] at hlen ⊢
    exact decide_eq_false hlen
  rcases hp : check_connectivity zonesConfig adj with ⟨b, disc⟩
  rw [hp] at h1 hspec
  simp only at h1
  subst h1
  refine ⟨disc, ?_, hspec, ?_⟩
  · simp only [optimize_all, hie, Bool.false_eq_true, if_false, hp]
  · simp only [optimize_all, hie, Bool.false_eq_true, if_false, hp]

/-- C5 witness: two zones with no adjacency at all — zone 1 is unreachable
from the root (zone 0, the thicker one), so the orchestrator aborts and the
abstract optimization stage (here `0` vs `1`) is never consulted. -/
theorem disconnected_zones_abort_witness :
    ([[], []] : List (List ℕ)) ≠ [] ∧
    ∃ disc : List ℕ,
      optimize_all [[(0, 4)], [(0, 2)]] [[], []] (0 : ℕ) =
        Sum.inl ⟨false, disc, [],
          root_index (zone_totals [[(0, 4)], [(0, 2)]])⟩ ∧
      (∀ i, i ∈ disc ↔ i < ([[(0, 4)], [(0, 2)]] :
          List (List (ℤ × ℤ))).length ∧
        ¬ Relation.ReflTransGen (stepRel [[], []])
          (root_index (zone_totals [[(0, 4)], [(0, 2)]])) i) ∧
      optimize_all [[(0, 4)], [(0, 2)]] [[], []] (1 : ℕ) =
        optimize_all [[(0, 4)], [(0, 2)]] [[], []] (0 : ℕ) := by
  have hstep : ∀ a b : ℕ, ¬ stepRel [[], []] a b := by
    intro a b hb
    rcases a with _ | a
    · exact List.not_mem_nil b hb
    · rcases a with _ | a
      · exact List.not_mem_nil b hb
      · exact List.not_mem_nil b hb
  refine ⟨by decide,
    disconnected_zones_abort [[(0, 4)], [(0, 2)]] [[], []] 0 1 (by decide)
      ⟨1, by decide, ?_⟩⟩
  intro hr
  rcases Relation.ReflTransGen.cases_head hr with h | ⟨c, hc, _⟩
  · have : root_index (zone_totals [[(0, 4)], [(0, 2)]]) = 0 := by decide
    omega
  · exact hstep _ c hc

end Tusas
